import Mathlib

/-!
# The way-drawing behaviour of the editor (`modules/behavior/draw_way.js`)

A shallow embedding of `behaviorDrawWay`: the closure variables of the behaviour
(`_tempEdits`, `end`, and the constants `wayId`, `index`, `mode`, `startGraph`,
`origWay`, `annotation_`) together with the parts of the editor context it talks
to (edit history, the `nope` class of the surface, the current mode) form one
record `State`; every handler of the behaviour is a function on that record.

* JavaScript exceptions: a handler returns an `Outcome`, the state reached and the
  error thrown, if any.  Mutations made before a `throw` stay in the state.
* Object identity: graphs are immutable objects compared with `!==`.  A graph
  carries the identity `oid` of its object; every operation that builds a new
  graph object takes the next free identity from the allocator `nextOid`.
* The `while` loops of `cancel` and `off` take fuel; running out of fuel is `none`.
* Coordinates are only copied by this file, never computed with; they are pairs
  of integers.  Distances are only compared.
* Not modelled: the `active` class, event-listener registration, the timer that
  re-enables double click, `drawWay.tail` and `drawWay.activeID`.
-/

namespace DrawWay

/-! ## Entities and graphs -/

abbrev EntityId := Nat

abbrev Loc := Int × Int

abbrev Annotation := String

/-- Errors a call can throw. -/
inductive Err where
  | entityNotFound (id : EntityId)
  | typeError (id : EntityId)
  deriving DecidableEq, Repr

structure Node where
  id : EntityId
  loc : Loc
  deriving DecidableEq, Repr

structure Way where
  id : EntityId
  nodes : List EntityId
  deriving DecidableEq, Repr

inductive Entity where
  | node (n : Node)
  | way (w : Way)
  deriving DecidableEq, Repr

def Entity.id : Entity → EntityId
  | .node n => n.id
  | .way w => w.id

/-- Location of an entity: nodes have one, ways do not. -/
def Entity.loc : Entity → Option Loc
  | .node n => some n.loc
  | .way _ => none

/-- Modelled from the spec: `osmNode({ loc: ... })` of `modules/osm`, the
provisional point, created with an identity of its own. -/
def osmNode (id : EntityId) (loc : Loc) : Entity :=
  .node { id := id, loc := loc }

/-- Modelled from the spec: `way.isClosed()` of `modules/osm`; a shape is closed
when it has more than one point and ends where it starts. -/
def Way.isClosed (w : Way) : Bool :=
  decide (1 < w.nodes.length) && (w.nodes.head? == w.nodes.getLast?)

/-- Modelled from the spec: `way.addNode(id, index)` of `modules/osm`; the id is
inserted into the point sequence at position `index` (after the last point when
`index` is past the end). -/
def Way.addNode (w : Way) (id : EntityId) (index : Nat) : Way :=
  { w with nodes := w.nodes.take index ++ id :: w.nodes.drop index }

/-- An immutable graph object: its identity and the entities it holds. -/
structure Graph where
  oid : Nat
  entities : List Entity
  deriving DecidableEq, Repr

/-- Modelled from the spec: `hasEntity(id)` of the store; the entity, or nothing. -/
def Graph.hasEntity (g : Graph) (id : EntityId) : Option Entity :=
  g.entities.find? (fun e => e.id == id)

/-- Modelled from the spec: `getEntity(id)` of the store (`graph.entity`,
`context.entity`); an id the store does not hold has no entity and the call
throws.  The behaviour itself uses `hasEntity` where absence is expected. -/
def Graph.entity (g : Graph) (id : EntityId) : Except Err Entity :=
  match g.hasEntity id with
  | some e => .ok e
  | none => .error (.entityNotFound id)

/-- Modelled from the spec: `graph.replace(entity)` of the store; a new graph
object in which `entity` stands for its id. -/
def Graph.replace (g : Graph) (e : Entity) (oid : Nat) : Graph :=
  { oid := oid, entities := g.entities.filter (fun x => x.id != e.id) ++ [e] }

/-- Modelled from the spec: `graph.remove(entity)` of the store; a new graph
object without an entity of that id. -/
def Graph.remove (g : Graph) (e : Entity) (oid : Nat) : Graph :=
  { oid := oid, entities := g.entities.filter (fun x => x.id != e.id) }

/-- Modelled from the spec: `graph.parentWays(entity)` of the store; the shapes
that contain the entity as a member. -/
def Graph.parentWays (g : Graph) (e : Entity) : List Way :=
  g.entities.filterMap (fun x =>
    match x with
    | .way w => if e.id ∈ w.nodes then some w else none
    | .node _ => none)

/-- The call `ids.map(function(id) { return graph.entity(id); })`; it throws at the
first id the graph does not hold. -/
def Graph.mapEntity (g : Graph) : List EntityId → Except Err (List Entity)
  | [] => .ok []
  | id :: ids =>
    match g.entity id with
    | .error e => .error e
    | .ok x =>
      match g.mapEntity ids with
      | .error e => .error e
      | .ok xs => .ok (x :: xs)

/-! ## Imported collaborators -/

/-- Distance reported for an edge choice.  `inf` stands for every value that is
not a finite number; `d < best` is false for it whatever `best` is. -/
inductive Dist where
  | fin (d : Nat)
  | inf
  deriving DecidableEq, Repr

/-- The comparison `a < b` of two distances. -/
def Dist.lt : Dist → Dist → Bool
  | .fin a, .fin b => decide (a < b)
  | .fin _, .inf => true
  | .inf, _ => false

/-- Result of `geoChooseEdge`. -/
structure Choice where
  index : Nat
  distance : Dist
  loc : Loc
  deriving DecidableEq, Repr

/-- A graph transformation run by the history, given the next free object identity. -/
abbrev Action := Graph → Nat → Except Err (Graph × Nat)

/-- Functions the file imports from modules that are not part of it; they are
parameters of the embedding.  `geoChooseEdge nodes mouse skipID` has the
projection of the context built in. -/
structure Imports where
  geoChooseEdge : List Entity → Loc → EntityId → Option Choice
  geoHasSelfIntersections : List Entity → EntityId → Bool
  actionAddMidpoint : Loc → EntityId × EntityId → Entity → Action
  isDegenerate : Entity → Bool
  geometry : Graph → EntityId → String
  t : String → Annotation

/-! ## The editor context -/

/-- Modes the behaviour can ask the mode controller to enter. -/
inductive Mode where
  | browse
  | select (ids : List EntityId) (newFeature : Bool)
  | draw (tag : Nat)
  deriving DecidableEq, Repr

/-- One entry of the edit history. -/
structure Entry where
  graph : Graph
  annotation_ : Option Annotation
  deriving DecidableEq, Repr

/-- Modelled from the spec: the undo-capable store.  `base` is the bottom entry,
which is never popped; `rest` holds the entries above it, the most recent first. -/
structure History where
  base : Entry
  rest : List Entry
  deriving DecidableEq, Repr

/-- The entry on top of the history. -/
def History.current (h : History) : Entry :=
  h.rest.headD h.base

/-- Modelled from the spec: `currentState()` of the store. -/
def History.graph (h : History) : Graph :=
  h.current.graph

/-- Modelled from the spec: `popEdits(n)` of the store; removes the `n` most
recent entries and does nothing at the bottom of the history. -/
def History.pop (h : History) (n : Nat) : History :=
  { h with rest := h.rest.drop n }

/-- All entries of the history, the most recent first. -/
def History.entries (h : History) : List Entry :=
  h.rest ++ [h.base]

/-- The editor context as far as the behaviour uses it. -/
structure Context where
  history : History
  nextOid : Nat
  nope : Bool
  mode : Mode
  deriving DecidableEq, Repr

def Context.graph (c : Context) : Graph :=
  c.history.graph

def Context.entity (c : Context) (id : EntityId) : Except Err Entity :=
  c.graph.entity id

def Context.hasEntity (c : Context) (id : EntityId) : Option Entity :=
  c.graph.hasEntity id

def Context.pop (c : Context) (n : Nat) : Context :=
  { c with history := c.history.pop n }

/-- Runs the actions of one edit in order on a graph. -/
def runActions : List Action → Graph → Nat → Except Err (Graph × Nat)
  | [], g, n => .ok (g, n)
  | a :: as, g, n =>
    match a g n with
    | .error e => .error e
    | .ok (g1, n1) => runActions as g1 n1

/-- Modelled from the spec: `performEdit(mutation, annotation_)` of the store;
pushes the result of the actions as a new entry. -/
def Context.perform (c : Context) (actions : List Action)
    (annotation_ : Option Annotation) : Except Err Context :=
  match runActions actions c.graph c.nextOid with
  | .error e => .error e
  | .ok (g, n) =>
    .ok { c with
      history := { c.history with rest := { graph := g, annotation_ := annotation_ } :: c.history.rest }
      nextOid := n }

/-- Modelled from the spec: `replaceTopEdit(mutation)` of the store; the result
of the actions takes the place of the entry on top. -/
def Context.replace (c : Context) (actions : List Action) : Except Err Context :=
  match runActions actions c.graph c.nextOid with
  | .error e => .error e
  | .ok (g, n) =>
    .ok { c with
      history :=
        match c.history.rest with
        | [] => { c.history with base := { graph := g, annotation_ := none } }
        | _ :: r => { c.history with rest := { graph := g, annotation_ := none } :: r }
      nextOid := n }

/-- Modelled from the spec: `actionNoop()` of `modules/actions`; gives back the
graph object it was given. -/
def actionNoop : Action :=
  fun graph oid => .ok (graph, oid)

/-- Modelled from the spec: `actionMoveNode(nodeID, loc)` of `modules/actions`;
replaces the point's location in place. -/
def actionMoveNode (nodeID : EntityId) (loc : Loc) : Action :=
  fun graph oid =>
    match graph.entity nodeID with
    | .error e => .error e
    | .ok (.node n) => .ok (graph.replace (.node { n with loc := loc }) oid, oid + 1)
    | .ok (.way _) => .error (.typeError nodeID)

/-! ## The behaviour -/

/-- Closure of `behaviorDrawWay` together with the context it works on. -/
structure State where
  ctx : Context
  wayId : EntityId
  index : Nat
  mode : Mode
  startGraph : Graph
  origWay : Entity
  annotation_ : Annotation
  _tempEdits : Nat
  end_ : Entity
  deriving DecidableEq, Repr

/-- State a handler leaves behind, and the error it threw, if any. -/
structure Outcome where
  state : State
  thrown : Option Err
  deriving DecidableEq, Repr

/-- Runs `f` after a step unless the step threw. -/
def Outcome.andThen (o : Outcome) (f : State → Outcome) : Outcome :=
  match o.thrown with
  | some _ => o
  | none => f o.state

/-- Target descriptor `datum.properties.entity`. -/
structure TargetEntity where
  loc : Option Loc
  deriving DecidableEq, Repr

/-- The record `datum.properties`. -/
structure Properties where
  entity : Option TargetEntity
  nodes : Option (List (List EntityId))
  nope : Bool
  deriving DecidableEq, Repr

/-- Hit-tested target of a pointer event. -/
structure Datum where
  properties : Option Properties
  deriving DecidableEq, Repr

/-- A pointer move: the target under the pointer, `context.mouse()` and
`context.map().mouseCoordinates()`. -/
structure MoveEvent where
  datum : Option Datum
  mouse : Loc
  mouseCoordinates : Loc
  deriving DecidableEq, Repr

/-- The inner function of `_actionAddDrawNode`. -/
def _actionAddDrawNode (origWay : Entity) (end_ : Entity) (index : Nat) : Action :=
  fun graph oid =>
    match origWay with
    | .way w =>
      .ok (((graph.replace end_ oid).replace (.way (w.addNode end_.id index)) (oid + 1)), oid + 2)
    | .node n => .error (.typeError n.id)

/-- The inner function of `_actionReplaceDrawNode`. -/
def _actionReplaceDrawNode (origWay : Entity) (end_ : Entity) (index : Nat)
    (newNode : Entity) : Action :=
  fun graph oid =>
    match origWay with
    | .way w =>
      .ok (((graph.replace (.way (w.addNode newNode.id index)) oid).remove end_ (oid + 1)), oid + 2)
    | .node n => .error (.typeError n.id)

/-- The loop of `isInvalidGeometry` over the parent ways. -/
def isInvalidGeometryLoop (im : Imports) (entity : Entity) (graph : Graph) (skipLast : Bool) :
    List Way → Except Err Bool
  | [] => .ok false
  | parent :: parents =>
    match graph.mapEntity parent.nodes with
    | .error e => .error e
    | .ok nodes =>
      if parent.isClosed &&
          im.geoHasSelfIntersections (if skipLast then nodes.dropLast else nodes) entity.id then
        .ok true
      else
        isInvalidGeometryLoop im entity graph skipLast parents

def isInvalidGeometry (im : Imports) (entity : Entity) (graph : Graph) (skipLast : Bool) :
    Except Err Bool :=
  isInvalidGeometryLoop im entity graph skipLast (graph.parentWays entity)

def checkGeometry (im : Imports) (s : State) (skipLast : Bool) : Outcome :=
  match isInvalidGeometry im s.end_ s.ctx.graph skipLast with
  | .error e => { state := s, thrown := some e }
  | .ok doBlock => { state := { s with ctx := { s.ctx with nope := doBlock } }, thrown := none }

/-- The loop of `move` over `nodeGroups`, carrying `best` and `loc`. -/
def moveLoop (im : Imports) (graph : Graph) (mouse : Loc) (endId : EntityId) :
    List (List EntityId) → Dist → Loc → Except Err (Dist × Loc)
  | [], best, loc => .ok (best, loc)
  | group :: groups, best, loc =>
    match graph.mapEntity group with
    | .error e => .error e
    | .ok childNodes =>
      match im.geoChooseEdge childNodes mouse endId with
      | some choice =>
        if choice.distance.lt best then
          moveLoop im graph mouse endId groups choice.distance choice.loc
        else
          moveLoop im graph mouse endId groups best loc
      | none => moveLoop im graph mouse endId groups best loc

/-- The value of `datum && datum.properties && datum.properties.entity &&
datum.properties.entity.loc`. -/
def nodeLocOf (datum : Option Datum) : Option Loc :=
  match datum with
  | none => none
  | some d =>
    match d.properties with
    | none => none
    | some p =>
      match p.entity with
      | none => none
      | some e => e.loc

/-- The value of `datum && datum.properties && datum.properties.nodes`. -/
def nodeGroupsOf (datum : Option Datum) : Option (List (List EntityId)) :=
  match datum with
  | none => none
  | some d =>
    match d.properties with
    | none => none
    | some p => p.nodes

/-- The first part of `move`: the location the provisional node is moved to. -/
def moveLoc (im : Imports) (s : State) (ev : MoveEvent) : Except Err Loc :=
  match nodeLocOf ev.datum with
  | some nodeLoc => .ok nodeLoc
  | none =>
    match nodeGroupsOf ev.datum with
    | some nodeGroups =>
      match moveLoop im s.ctx.graph ev.mouse s.end_.id nodeGroups .inf ev.mouseCoordinates with
      | .error e => .error e
      | .ok (_, loc) => .ok loc
    | none => .ok ev.mouseCoordinates

def move (im : Imports) (s : State) (ev : MoveEvent) : Outcome :=
  match moveLoc im s ev with
  | .error e => { state := s, thrown := some e }
  | .ok loc =>
    match s.ctx.replace [actionMoveNode s.end_.id loc] with
    | .error e => { state := s, thrown := some e }
    | .ok c =>
      match c.entity s.end_.id with
      | .error e => { state := { s with ctx := c }, thrown := some e }
      | .ok e => checkGeometry im { s with ctx := c, end_ := e } true

/-- The value of `d && d.properties && d.properties.nope`. -/
def datumNope (d : Option Datum) : Bool :=
  match d with
  | none => false
  | some d =>
    match d.properties with
    | none => false
    | some p => p.nope

/-- The mode controller's `context.enter(mode)`: records the mode asked for. -/
def enter (s : State) (m : Mode) : State :=
  { s with ctx := { s.ctx with mode := m } }

-- Accept the current position of the drawing node and continue drawing.
def add (im : Imports) (s : State) (_loc : Loc) (d : Option Datum) : Outcome :=
  if datumNope d || s.ctx.nope then
    { state := s, thrown := none }
  else
    let s1 : State := { s with ctx := s.ctx.pop s._tempEdits }
    let s2 : State := { s1 with _tempEdits := 0 }
    match s2.ctx.perform [_actionAddDrawNode s2.origWay s2.end_ s2.index]
        (some s2.annotation_) with
    | .error e => { state := s2, thrown := some e }
    | .ok c => (checkGeometry im { s2 with ctx := c } false).andThen (fun s3 =>
        { state := enter s3 s3.mode, thrown := none })

-- Connect the way to an existing way.
def addWay (im : Imports) (s : State) (loc : Loc) (edge : EntityId × EntityId) : Outcome :=
  if s.ctx.nope then
    { state := s, thrown := none }
  else
    let s1 : State := { s with ctx := s.ctx.pop s._tempEdits }
    let s2 : State := { s1 with _tempEdits := 0 }
    match s2.ctx.perform
        [_actionAddDrawNode s2.origWay s2.end_ s2.index, im.actionAddMidpoint loc edge s2.end_]
        (some s2.annotation_) with
    | .error e => { state := s2, thrown := some e }
    | .ok c => (checkGeometry im { s2 with ctx := c } false).andThen (fun s3 =>
        { state := enter s3 s3.mode, thrown := none })

-- Connect the way to an existing node and continue drawing.
def addNode (im : Imports) (s : State) (node : Entity) : Outcome :=
  if s.ctx.nope then
    { state := s, thrown := none }
  else
    let s1 : State := { s with ctx := s.ctx.pop s._tempEdits }
    let s2 : State := { s1 with _tempEdits := 0 }
    match s2.ctx.perform [_actionReplaceDrawNode s2.origWay s2.end_ s2.index node]
        (some s2.annotation_) with
    | .error e => { state := s2, thrown := some e }
    | .ok c => (checkGeometry im { s2 with ctx := c } false).andThen (fun s3 =>
        { state := enter s3 s3.mode, thrown := none })

/-- The steps `add`, `addWay` and `addNode` share once they are past their guard,
for the actions each of them performs; used to reason about the three at once. -/
def commit (im : Imports) (s : State) (actions : State → List Action) : Outcome :=
  let s1 : State := { s with ctx := s.ctx.pop s._tempEdits }
  let s2 : State := { s1 with _tempEdits := 0 }
  match s2.ctx.perform (actions s2) (some s2.annotation_) with
  | .error e => { state := s2, thrown := some e }
  | .ok c => (checkGeometry im { s2 with ctx := c } false).andThen (fun s3 =>
      { state := enter s3 s3.mode, thrown := none })

/-- The loop `while (context.graph() !== startGraph) context.pop()`. -/
def popToStart (startGraph : Graph) : Nat → Context → Option Context
  | 0, c => if c.graph = startGraph then some c else none
  | fuel + 1, c => if c.graph = startGraph then some c else popToStart startGraph fuel (c.pop 1)

def cancel (fuel : Nat) (s : State) : Option State :=
  let s1 : State := { s with ctx := s.ctx.pop s._tempEdits }
  let s2 : State := { s1 with _tempEdits := 0 }
  match popToStart s2.startGraph fuel s2.ctx with
  | none => none
  | some c => some (enter { s2 with ctx := { c with nope := false } } .browse)

def off (fuel : Nat) (s : State) : Option State :=
  if s._tempEdits ≠ 0 then
    match popToStart s.startGraph fuel (s.ctx.pop s._tempEdits) with
    | none => none
    | some c => some { s with ctx := c }
  else
    some s

-- Finish the draw operation, removing the temporary edits.
-- If the way has enough nodes to be valid, it's selected.
-- Otherwise, delete everything and return to browse mode.
def finish (im : Imports) (fuel : Nat) (s : State) : Option Outcome :=
  match checkGeometry im s false with
  | { state := s0, thrown := some e } => some { state := s0, thrown := some e }
  | { state := s0, thrown := none } =>
    if s0.ctx.nope then
      some { state := s0, thrown := none }
    else
      let s1 : State := { s0 with ctx := s0.ctx.pop s0._tempEdits }
      let s2 : State := { s1 with _tempEdits := 0 }
      match s2.ctx.hasEntity s2.wayId with
      | none => (cancel fuel s2).map (fun s3 => { state := s3, thrown := none })
      | some way =>
        if im.isDegenerate way then
          (cancel fuel s2).map (fun s3 => { state := s3, thrown := none })
        else
          some { state := enter s2 (.select [s2.wayId] true), thrown := none }

/-- The handler of the `undone` event of the history. -/
def undone (s : State) : State :=
  let s1 : State := { s with ctx := s.ctx.pop 2 }
  let s2 : State := { s1 with _tempEdits := 0 }
  if (s2.ctx.hasEntity s2.wayId).isSome then enter s2 s2.mode else enter s2 .browse

/-- Result of calling `behaviorDrawWay`: the behaviour, or the error thrown and
the context as the call left it. -/
inductive Started where
  | ok (s : State)
  | thrown (e : Err) (c : Context)
  deriving DecidableEq, Repr

/-- The body of `behaviorDrawWay` up to the definition of the handlers.  `endId`
is the identity `osmNode` gives the provisional node and `mouseCoordinates` the
value of `context.map().mouseCoordinates()`. -/
def behaviorDrawWay (im : Imports) (context : Context) (wayId : EntityId) (index : Nat)
    (mode : Mode) (startGraph : Graph) (endId : EntityId) (mouseCoordinates : Loc) : Started :=
  match context.entity wayId with
  | .error e => .thrown e context
  | .ok origWay =>
    let annotation_ := im.t
      ((if im.isDegenerate origWay then "operations.start.annotation."
        else "operations.continue.annotation.") ++ im.geometry context.graph wayId)
    let end_ := osmNode endId mouseCoordinates
    match context.perform [actionNoop] (some annotation_) with
    | .error e => .thrown e context
    | .ok c1 =>
      match c1.perform [_actionAddDrawNode origWay end_ index] none with
      | .error e => .thrown e c1
      | .ok c2 =>
        .ok { ctx := c2, wayId := wayId, index := index, mode := mode, startGraph := startGraph,
              origWay := origWay, annotation_ := annotation_, _tempEdits := 2, end_ := end_ }

/-- Events of a session that the claims quantify over. -/
inductive Event where
  | move (ev : MoveEvent)
  | add (loc : Loc) (d : Option Datum)
  deriving DecidableEq, Repr

/-- Handles one event; an error thrown by a handler leaves the session in the
state the handler had reached. -/
def step (im : Imports) (s : State) : Event → State
  | .move ev => (move im s ev).state
  | .add loc d => (add im s loc d).state

/-- Handles a sequence of events in order. -/
def run (im : Imports) (s : State) (evs : List Event) : State :=
  evs.foldl (step im) s

/-! ## A sample instance of the imported functions

Integer-grid versions of the geometry primitives, used to evaluate the handlers
on concrete inputs. -/

/-- Twice the signed area of the triangle `o a b`. -/
def cross (o a b : Loc) : Int :=
  (a.1 - o.1) * (b.2 - o.2) - (a.2 - o.2) * (b.1 - o.1)

/-- Two segments cross in a point interior to both. -/
def segmentsCross (p q : Loc × Loc) : Bool :=
  decide (cross q.1 q.2 p.1 * cross q.1 q.2 p.2 < 0) &&
    decide (cross p.1 p.2 q.1 * cross p.1 p.2 q.2 < 0)

/-- Segments between consecutive nodes of a path, with the ids of their ends. -/
def segmentsOf (nodes : List Entity) : List ((EntityId × EntityId) × (Loc × Loc)) :=
  (nodes.zip nodes.tail).filterMap (fun ab =>
    match ab with
    | (.node a, .node b) => some ((a.id, b.id), (a.loc, b.loc))
    | _ => none)

/-- Some segment that touches the active node crosses one that does not. -/
def gridHasSelfIntersections (nodes : List Entity) (activeID : EntityId) : Bool :=
  let touches := fun (s : (EntityId × EntityId) × (Loc × Loc)) =>
    s.1.1 == activeID || s.1.2 == activeID
  ((segmentsOf nodes).filter touches).any (fun p =>
    ((segmentsOf nodes).filter (fun s => !touches s)).any (fun q => segmentsCross p.2 q.2))

/-- Distance between two grid points, summed over the axes. -/
def gridDistance (a b : Loc) : Nat :=
  (a.1 - b.1).natAbs + (a.2 - b.2).natAbs

/-- The vertex nearest to the pointer among the nodes other than `skipID`; the
first one wins among equals. -/
def gridChooseEdge (nodes : List Entity) (mouse : Loc) (skipID : EntityId) : Option Choice :=
  nodes.enum.foldl (fun best ie =>
    match ie.2 with
    | .node n =>
      if n.id == skipID then best
      else
        match best with
        | none => some { index := ie.1, distance := .fin (gridDistance n.loc mouse), loc := n.loc }
        | some b =>
          if (Dist.fin (gridDistance n.loc mouse)).lt b.distance then
            some { index := ie.1, distance := .fin (gridDistance n.loc mouse), loc := n.loc }
          else some b
    | .way _ => best) none

/-- Moves `node` to `loc` and splices it into every way between the two ends of `edge`. -/
def gridAddMidpoint (loc : Loc) (edge : EntityId × EntityId) (node : Entity) : Action :=
  fun graph oid =>
    let moved : Entity := .node { id := node.id, loc := loc }
    let spliced := (graph.replace moved oid).entities.map (fun e =>
      match e with
      | .way w =>
        match (w.nodes.zip w.nodes.tail).indexOf? edge with
        | some i => Entity.way (w.addNode node.id (i + 1))
        | none => e
      | .node _ => e)
    .ok ({ oid := oid + 1, entities := spliced }, oid + 2)

/-- The sample instance. -/
def gridImports : Imports where
  geoChooseEdge := gridChooseEdge
  geoHasSelfIntersections := gridHasSelfIntersections
  actionAddMidpoint := gridAddMidpoint
  isDegenerate := fun e =>
    match e with
    | .way w => decide (w.nodes.eraseDups.length < 2)
    | .node _ => false
  geometry := fun _ _ => "line"
  t := fun key => key

/-- Invariant of a running session over the history `h0` it was started on: the
entries of `h0` are all in place, below at least one entry of the session, and
the temporary edits counted are entries of the session. -/
def OnTop (h0 : History) (sg : Graph) (s : State) : Prop :=
  s.ctx.history.base = h0.base ∧ s.startGraph = sg ∧ (∃ w, s.origWay = .way w) ∧
    ∃ sess, sess ≠ [] ∧ s.ctx.history.rest = sess ++ h0.rest ∧ s._tempEdits ≤ sess.length

/-! ## Sample data -/

/-- A graph with an open way of two nodes. -/
def lineGraph : Graph :=
  { oid := 0, entities := [.node ⟨1, (0, 0)⟩, .node ⟨2, (4, 0)⟩, .way ⟨10, [1, 2]⟩] }

/-- A context whose history holds `lineGraph` only. -/
def lineContext : Context :=
  { history := { base := ⟨lineGraph, none⟩, rest := [] }, nextOid := 1, nope := false,
    mode := .draw 0 }

/-- The session started on `lineContext` for way 10 at index 2, with provisional
node 99 at `(5, 5)`. -/
def lineSession : State :=
  { ctx :=
      { history :=
          { base := ⟨lineGraph, none⟩
            rest :=
              [⟨{ oid := 2
                  entities := [.node ⟨1, (0, 0)⟩, .node ⟨2, (4, 0)⟩, .node ⟨99, (5, 5)⟩,
                    .way ⟨10, [1, 2, 99]⟩] }, none⟩,
               ⟨lineGraph, some "operations.continue.annotation.line"⟩] }
        nextOid := 3, nope := false, mode := .draw 0 }
    wayId := 10, index := 2, mode := .draw 0, startGraph := lineGraph,
    origWay := .way ⟨10, [1, 2]⟩, annotation_ := "operations.continue.annotation.line",
    _tempEdits := 2, end_ := .node ⟨99, (5, 5)⟩ }

/-- Every node id of every way of the graph is the id of an entity of the graph. -/
def Graph.NodesPresent (g : Graph) : Prop :=
  ∀ w, Entity.way w ∈ g.entities → ∀ id ∈ w.nodes, (g.hasEntity id).isSome = true

/-- The edge candidates that `move` looks up for this event are ids of entities
of the graph. -/
def MoveEvent.TargetsPresent (ev : MoveEvent) (g : Graph) : Prop :=
  nodeLocOf ev.datum = none → ∀ groups, nodeGroupsOf ev.datum = some groups →
    ∀ group ∈ groups, ∀ id ∈ group, (g.hasEntity id).isSome = true

/-- Invariant of a session under move events, over the graph `g0` it had before
them: the nodes of all ways are present, the provisional node is a node of the
current graph, and the current graph holds the ids that `g0` holds. -/
def MoveInv (g0 : Graph) (s : State) : Prop :=
  s.ctx.graph.NodesPresent ∧ (∃ n, s.ctx.graph.hasEntity s.end_.id = some (.node n)) ∧
    ∀ id, (s.ctx.graph.hasEntity id).isSome = (g0.hasEntity id).isSome

/-- A graph with a closed way of three nodes. -/
def bowGraph : Graph :=
  { oid := 0
    entities := [.node ⟨1, (0, 0)⟩, .node ⟨2, (2, 2)⟩, .node ⟨3, (2, -2)⟩, .way ⟨10, [1, 2, 3, 1]⟩] }

/-- A context whose history holds `bowGraph` only. -/
def bowContext : Context :=
  { history := { base := ⟨bowGraph, none⟩, rest := [] }, nextOid := 1, nope := false,
    mode := .draw 0 }

/-- The session started on `bowContext` for way 10 at index 3, with provisional
node 99 at `(3, -3)`. -/
def bowSession : State :=
  { ctx :=
      { history :=
          { base := ⟨bowGraph, none⟩
            rest :=
              [⟨{ oid := 2
                  entities := [.node ⟨1, (0, 0)⟩, .node ⟨2, (2, 2)⟩, .node ⟨3, (2, -2)⟩,
                    .node ⟨99, (3, -3)⟩, .way ⟨10, [1, 2, 3, 99, 1]⟩] }, none⟩,
               ⟨bowGraph, some "operations.continue.annotation.line"⟩] }
        nextOid := 3, nope := false, mode := .draw 0 }
    wayId := 10, index := 3, mode := .draw 0, startGraph := bowGraph,
    origWay := .way ⟨10, [1, 2, 3, 1]⟩, annotation_ := "operations.continue.annotation.line",
    _tempEdits := 2, end_ := .node ⟨99, (3, -3)⟩ }

/-- The choices `geoChooseEdge` makes for the edge candidates of a move, in the
order the loop evaluates them; a candidate without a choice contributes nothing. -/
def edgeChoices (im : Imports) (graph : Graph) (mouse : Loc) (endId : EntityId)
    (groups : List (List EntityId)) : List Choice :=
  groups.filterMap (fun group =>
    match graph.mapEntity group with
    | .ok childNodes => im.geoChooseEdge childNodes mouse endId
    | .error _ => none)

/-- One round of the loop of `move` on the pair `(best, loc)`. -/
def pickChoice (acc : Dist × Loc) (choice : Choice) : Dist × Loc :=
  if choice.distance.lt acc.1 then (choice.distance, choice.loc) else acc

/-- A move over two edge candidates of `lineSession`, the first at distance 5 and
the second at distance 3 from the pointer. -/
def edgeMove : MoveEvent :=
  { datum := some ⟨some ⟨none, some [[1], [2]], false⟩⟩, mouse := (3, 2), mouseCoordinates := (7, 7) }

/-- A move whose edge candidate names entity 7, which no sample graph holds. -/
def danglingMove : MoveEvent :=
  { datum := some ⟨some ⟨none, some [[1, 2], [7]], false⟩⟩, mouse := (1, 1),
    mouseCoordinates := (7, 7) }

/-- A graph with a closed square way 20 and a way 10 that has no nodes yet. -/
def squareGraph : Graph :=
  { oid := 0
    entities := [.node ⟨2, (0, 0)⟩, .node ⟨3, (4, 0)⟩, .node ⟨4, (4, 4)⟩, .node ⟨5, (0, 4)⟩,
      .way ⟨20, [2, 3, 4, 5, 2]⟩, .way ⟨10, []⟩] }

/-- A context whose history holds `squareGraph` only. -/
def squareContext : Context :=
  { history := { base := ⟨squareGraph, none⟩, rest := [] }, nextOid := 1, nope := false,
    mode := .draw 0 }

/-- The session started on `squareContext` for way 10 at index 0, with provisional
node 99 at `(1, 1)`. -/
def squareSession : State :=
  { ctx :=
      { history :=
          { base := ⟨squareGraph, none⟩
            rest :=
              [⟨{ oid := 2
                  entities := [.node ⟨2, (0, 0)⟩, .node ⟨3, (4, 0)⟩, .node ⟨4, (4, 4)⟩,
                    .node ⟨5, (0, 4)⟩, .way ⟨20, [2, 3, 4, 5, 2]⟩, .node ⟨99, (1, 1)⟩,
                    .way ⟨10, [99]⟩] }, none⟩,
               ⟨squareGraph, some "operations.start.annotation.line"⟩] }
        nextOid := 3, nope := false, mode := .draw 0 }
    wayId := 10, index := 0, mode := .draw 0, startGraph := squareGraph,
    origWay := .way ⟨10, []⟩, annotation_ := "operations.start.annotation.line",
    _tempEdits := 2, end_ := .node ⟨99, (1, 1)⟩ }

/-- The state `squareSession` is in after `addWay` has connected the provisional
node to the edge from 2 to 3 of the square at `(2, 6)`. -/
def blockedSession : State :=
  (addWay gridImports squareSession (2, 6) (2, 3)).state

/-- A graph with the closed way of `bowGraph` and a fourth node at `(4, 0)`. -/
def crossGraph : Graph :=
  { oid := 0
    entities := [.node ⟨1, (0, 0)⟩, .node ⟨2, (2, 2)⟩, .node ⟨3, (2, -2)⟩, .node ⟨4, (4, 0)⟩,
      .way ⟨10, [1, 2, 3, 1]⟩] }

/-- The session started on a history that holds `crossGraph` only, for way 10 at
index 3, with provisional node 99 at `(3, -3)`. -/
def crossSession : State :=
  { ctx :=
      { history :=
          { base := ⟨crossGraph, none⟩
            rest :=
              [⟨{ oid := 2
                  entities := [.node ⟨1, (0, 0)⟩, .node ⟨2, (2, 2)⟩, .node ⟨3, (2, -2)⟩,
                    .node ⟨4, (4, 0)⟩, .node ⟨99, (3, -3)⟩, .way ⟨10, [1, 2, 3, 99, 1]⟩] }, none⟩,
               ⟨crossGraph, some "operations.continue.annotation.line"⟩] }
        nextOid := 3, nope := false, mode := .draw 0 }
    wayId := 10, index := 3, mode := .draw 0, startGraph := crossGraph,
    origWay := .way ⟨10, [1, 2, 3, 1]⟩, annotation_ := "operations.continue.annotation.line",
    _tempEdits := 2, end_ := .node ⟨99, (3, -3)⟩ }

/-- The state `s` differs from `s0` by move events only: the constants of the
closure, the counter and the id of `end` are those of `s0`, and the history is
that of `s0` up to the entry on top. -/
def Moved (s0 s : State) : Prop :=
  s.wayId = s0.wayId ∧ s.index = s0.index ∧ s.mode = s0.mode ∧ s.startGraph = s0.startGraph ∧
    s.origWay = s0.origWay ∧ s.annotation_ = s0.annotation_ ∧ s._tempEdits = s0._tempEdits ∧
    s.end_.id = s0.end_.id ∧ s.ctx.history.base = s0.ctx.history.base ∧
    ∃ e, s.ctx.history.rest = e :: s0.ctx.history.rest.tail

/-- The variable `end` is a node and the current graph holds it under its id. -/
def EndStored (s : State) : Prop :=
  ∃ n, s.end_ = .node n ∧ s.ctx.graph.hasEntity s.end_.id = some (.node n)

/-- The session that continues way 10 after `lineSession` has committed node 99
with `add`: started on the context `add` left, at index 3, with provisional
node 100 at `(6, 6)`. Way 10 has three committed points under its two temporary
entries. -/
def continuedSession : State :=
  match behaviorDrawWay gridImports (add gridImports lineSession (0, 0) none).state.ctx 10 3
      (.draw 0) lineGraph 100 (6, 6) with
  | .ok s => s
  | .thrown _ _ => lineSession

/-- The session started on `bowContext` for way 10 at index 3 with the pointer at
`(0, 2)`: the provisional node 99 makes the edge from 3 to 99 cross the edge from
1 to 2, and the constructor has run no check. -/
def staleSession : State :=
  { ctx :=
      { history :=
          { base := ⟨bowGraph, none⟩
            rest :=
              [⟨{ oid := 2
                  entities := [.node ⟨1, (0, 0)⟩, .node ⟨2, (2, 2)⟩, .node ⟨3, (2, -2)⟩,
                    .node ⟨99, (0, 2)⟩, .way ⟨10, [1, 2, 3, 99, 1]⟩] }, none⟩,
               ⟨bowGraph, some "operations.continue.annotation.line"⟩] }
        nextOid := 3, nope := false, mode := .draw 0 }
    wayId := 10, index := 3, mode := .draw 0, startGraph := bowGraph,
    origWay := .way ⟨10, [1, 2, 3, 1]⟩, annotation_ := "operations.continue.annotation.line",
    _tempEdits := 2, end_ := .node ⟨99, (0, 2)⟩ }

/-- Modelled from the spec: the midpoint mutation of `addWay` (`actionAddMidpoint`
of `modules/actions`) splices the point into the target edge; every way keeps
the members it had. -/
def Imports.MidpointKeepsNodes (im : Imports) : Prop :=
  ∀ loc edge node g n g1 n1, im.actionAddMidpoint loc edge node g n = .ok (g1, n1) →
    ∀ id v v1, g.hasEntity id = some (.way v) → g1.hasEntity id = some (.way v1) →
      ∀ x ∈ v.nodes, x ∈ v1.nodes

/-- Invariant of a session under move and add events: `origWay` is the way
`wayId`, `end` has the id `endId`, which is not `wayId`, and the target way of
the current graph is `origWay` with `endId` inserted at `index`. -/
def TargetHoldsEnd (w0 : Way) (endId : EntityId) (s : State) : Prop :=
  s.origWay = .way w0 ∧ w0.id = s.wayId ∧ s.end_.id = endId ∧ endId ≠ s.wayId ∧
    s.ctx.graph.hasEntity s.wayId = some (.way (w0.addNode endId s.index))

/-- A graph with the closed way of `bowGraph` and an open way 20 from 4 to 5. -/
def midGraph : Graph :=
  { oid := 0
    entities := [.node ⟨1, (0, 0)⟩, .node ⟨2, (2, 2)⟩, .node ⟨3, (2, -2)⟩, .node ⟨4, (4, 1)⟩,
      .node ⟨5, (4, -1)⟩, .way ⟨10, [1, 2, 3, 1]⟩, .way ⟨20, [4, 5]⟩] }

/-- A context whose history holds `midGraph` only. -/
def midContext : Context :=
  { history := { base := ⟨midGraph, none⟩, rest := [] }, nextOid := 1, nope := false,
    mode := .draw 0 }

/-- The session started on `midContext` for way 10 at index 3, with provisional
node 99 at `(3, -3)`. -/
def midSession : State :=
  { ctx :=
      { history :=
          { base := ⟨midGraph, none⟩
            rest :=
              [⟨{ oid := 2
                  entities := [.node ⟨1, (0, 0)⟩, .node ⟨2, (2, 2)⟩, .node ⟨3, (2, -2)⟩,
                    .node ⟨4, (4, 1)⟩, .node ⟨5, (4, -1)⟩, .way ⟨20, [4, 5]⟩,
                    .node ⟨99, (3, -3)⟩, .way ⟨10, [1, 2, 3, 99, 1]⟩] }, none⟩,
               ⟨midGraph, some "operations.continue.annotation.line"⟩] }
        nextOid := 3, nope := false, mode := .draw 0 }
    wayId := 10, index := 3, mode := .draw 0, startGraph := midGraph,
    origWay := .way ⟨10, [1, 2, 3, 1]⟩, annotation_ := "operations.continue.annotation.line",
    _tempEdits := 2, end_ := .node ⟨99, (3, -3)⟩ }

/-! ## The history under the handlers -/

theorem Context.pop_zero (c : Context) : c.pop 0 = c := by
  cases c; simp [Context.pop, History.pop]

theorem Context.pop_pop (c : Context) (a b : Nat) : (c.pop a).pop b = c.pop (a + b) := by
  simp [Context.pop, History.pop, List.drop_drop, Nat.add_comm]

/-- The unwinding loop returns as soon as the fuel covers the entries above the
bottom one, provided `startGraph` is the graph of an entry; it has then popped
some number of entries and stands on `startGraph`. -/
theorem popToStart_reaches (sg : Graph) :
    ∀ (rest : List Entry) (c : Context) (fuel : Nat),
      c.history.rest = rest → sg ∈ c.history.entries.map Entry.graph → rest.length ≤ fuel →
      ∃ k, popToStart sg fuel c = some (c.pop k) ∧ (c.pop k).graph = sg := by
  intro rest
  induction rest with
  | nil =>
    intro c fuel hr hmem _
    have hg : c.graph = sg := by
      simp [History.entries, hr] at hmem
      simp [Context.graph, History.graph, History.current, hr, hmem]
    refine ⟨0, ?_, by rw [Context.pop_zero]; exact hg⟩
    rw [Context.pop_zero]
    cases fuel <;> simp [popToStart, hg]
  | cons e r ih =>
    intro c fuel hr hmem hfuel
    have hcg : c.graph = e.graph := by
      simp [Context.graph, History.graph, History.current, hr]
    by_cases hg : e.graph = sg
    · refine ⟨0, ?_, by rw [Context.pop_zero, hcg]; exact hg⟩
      rw [Context.pop_zero]
      cases fuel <;> simp [popToStart, hcg, hg]
    · obtain ⟨f, rfl⟩ : ∃ f, fuel = f + 1 := ⟨fuel - 1, by simp at hfuel; omega⟩
      have hr1 : (c.pop 1).history.rest = r := by simp [Context.pop, History.pop, hr]
      have hmem1 : sg ∈ (c.pop 1).history.entries.map Entry.graph := by
        simp only [History.entries, hr, List.cons_append, List.map_cons, List.mem_cons] at hmem
        rcases hmem with h | h
        · exact absurd h.symm hg
        · simpa [History.entries, Context.pop, History.pop, hr] using h
      obtain ⟨k, hk, hkg⟩ := ih (c.pop 1) f hr1 hmem1 (by simp at hfuel; omega)
      refine ⟨1 + k, ?_, by rw [← Context.pop_pop]; exact hkg⟩
      rw [← Context.pop_pop, ← hk]
      simp [popToStart, hcg, hg]

theorem Context.replace_history {c c1 : Context} {actions : List Action} {e : Entry}
    {r : List Entry} (h : c.replace actions = .ok c1) (hr : c.history.rest = e :: r) :
    c1.history.base = c.history.base ∧ ∃ e1, c1.history.rest = e1 :: r := by
  unfold Context.replace at h
  split at h
  · simp at h
  · simp only [Except.ok.injEq] at h
    subst h
    simp [hr]

theorem Context.perform_history {c c1 : Context} {actions : List Action}
    {annotation_ : Option Annotation} (h : c.perform actions annotation_ = .ok c1) :
    c1.history.base = c.history.base ∧ c1.nope = c.nope ∧ c1.mode = c.mode ∧
      ∃ g, c1.history.rest = { graph := g, annotation_ := annotation_ } :: c.history.rest := by
  unfold Context.perform at h
  split at h
  · simp at h
  · simp only [Except.ok.injEq] at h
    subst h
    simp

/-- The geometry check changes nothing but the blocking flag. -/
theorem checkGeometry_state (im : Imports) (s : State) (skipLast : Bool) :
    ∃ b, (checkGeometry im s skipLast).state = { s with ctx := { s.ctx with nope := b } } := by
  unfold checkGeometry
  split
  · exact ⟨s.ctx.nope, rfl⟩
  · exact ⟨_, rfl⟩

/-- Adding the drawing node to a way never throws. -/
theorem perform_addDrawNode_ok (c : Context) (w : Way) (end_ : Entity) (index : Nat)
    (annotation_ : Option Annotation) :
    ∃ c1, c.perform [_actionAddDrawNode (.way w) end_ index] annotation_ = .ok c1 := by
  simp [Context.perform, runActions, _actionAddDrawNode]

theorem behaviorDrawWay_onTop {im : Imports} {c0 : Context} {wayId : EntityId} {index : Nat}
    {mode : Mode} {sg : Graph} {endId : EntityId} {mc : Loc} {s : State}
    (h : behaviorDrawWay im c0 wayId index mode sg endId mc = .ok s) :
    OnTop c0.history sg s := by
  unfold behaviorDrawWay at h
  split at h
  · simp at h
  · rename_i origWay _
    simp only at h
    split at h
    · simp at h
    · rename_i c1 h1
      split at h
      · simp at h
      · rename_i c2 h2
        simp only [Started.ok.injEq] at h
        subst h
        obtain ⟨hb1, -, -, g1, hr1⟩ := Context.perform_history h1
        obtain ⟨hb2, -, -, g2, hr2⟩ := Context.perform_history h2
        refine ⟨by simp [hb2, hb1], rfl, ?_, ?_⟩
        · cases origWay with
          | way w => exact ⟨w, rfl⟩
          | node n => simp [Context.perform, runActions, _actionAddDrawNode] at h2
        · exact ⟨[_, _], by simp, by rw [hr2, hr1]; rfl, by simp⟩

theorem move_onTop {im : Imports} {h0 : History} {sg : Graph} {s : State} (ev : MoveEvent)
    (h : OnTop h0 sg s) : OnTop h0 sg (move im s ev).state := by
  obtain ⟨hb, hsg, hw, sess, hne, hr, ht⟩ := h
  obtain ⟨e, r, rfl⟩ : ∃ e r, sess = e :: r := by
    cases sess with
    | nil => exact absurd rfl hne
    | cons e r => exact ⟨e, r, rfl⟩
  unfold move
  split
  · exact ⟨hb, hsg, hw, _, hne, hr, ht⟩
  · split
    · exact ⟨hb, hsg, hw, _, hne, hr, ht⟩
    · rename_i c hc
      obtain ⟨hcb, e1, hcr⟩ := Context.replace_history hc (by simpa using hr)
      have key : ∀ x : State, x.ctx.history = c.history → x.startGraph = s.startGraph →
          x.origWay = s.origWay → x._tempEdits = s._tempEdits → OnTop h0 sg x := by
        intro x hx h1 h2 h3
        refine ⟨by rw [hx, hcb, hb], by rw [h1, hsg], by rw [h2]; exact hw,
          e1 :: r, by simp, by rw [hx, hcr]; simp, by rw [h3]; simpa using ht⟩
      split
      · exact key _ rfl rfl rfl rfl
      · rename_i e2 _
        obtain ⟨b, hbq⟩ := checkGeometry_state im { s with ctx := c, end_ := e2 } true
        rw [hbq]
        exact key _ rfl rfl rfl rfl

theorem add_eq_commit (im : Imports) (s : State) (loc : Loc) (d : Option Datum) :
    add im s loc d = if datumNope d || s.ctx.nope then { state := s, thrown := none }
      else commit im s (fun s2 => [_actionAddDrawNode s2.origWay s2.end_ s2.index]) := rfl

theorem addWay_eq_commit (im : Imports) (s : State) (loc : Loc) (edge : EntityId × EntityId) :
    addWay im s loc edge = if s.ctx.nope then { state := s, thrown := none }
      else commit im s (fun s2 =>
        [_actionAddDrawNode s2.origWay s2.end_ s2.index,
          im.actionAddMidpoint loc edge s2.end_]) := rfl

theorem addNode_eq_commit (im : Imports) (s : State) (node : Entity) :
    addNode im s node = if s.ctx.nope then { state := s, thrown := none }
      else commit im s (fun s2 =>
        [_actionReplaceDrawNode s2.origWay s2.end_ s2.index node]) := rfl

theorem commit_state (im : Imports) (s : State) (actions : State → List Action) (c : Context)
    (h : (s.ctx.pop s._tempEdits).perform
      (actions { s with ctx := s.ctx.pop s._tempEdits, _tempEdits := 0 })
      (some s.annotation_) = .ok c) :
    ∃ b m, (commit im s actions).state =
      { s with ctx := { c with nope := b, mode := m }, _tempEdits := 0 } := by
  unfold commit
  simp only [h]
  obtain ⟨b, hb⟩ := checkGeometry_state im { s with ctx := c, _tempEdits := 0 } false
  unfold Outcome.andThen
  split
  · exact ⟨b, c.mode, by rw [hb]⟩
  · exact ⟨b, s.mode, by rw [hb]; rfl⟩

theorem add_onTop {im : Imports} {h0 : History} {sg : Graph} {s : State} (loc : Loc)
    (d : Option Datum) (h : OnTop h0 sg s) : OnTop h0 sg (add im s loc d).state := by
  have h' := h
  obtain ⟨hb, hsg, ⟨w, hw⟩, sess, hne, hr, ht⟩ := h
  rw [add_eq_commit]
  split
  · exact h'
  · obtain ⟨c, hc⟩ := perform_addDrawNode_ok (s.ctx.pop s._tempEdits) w s.end_ s.index
      (some s.annotation_)
    obtain ⟨b, m, hs⟩ := commit_state im s
      (fun s2 => [_actionAddDrawNode s2.origWay s2.end_ s2.index]) c (by simpa [hw] using hc)
    rw [hs]
    obtain ⟨hcb, -, -, g, hcr⟩ := Context.perform_history hc
    refine ⟨by simpa [Context.pop, History.pop] using hcb.trans hb, hsg, ⟨w, hw⟩,
      { graph := g, annotation_ := some s.annotation_ } :: sess.drop s._tempEdits, by simp, ?_,
      by simp⟩
    simp only [hcr, Context.pop, History.pop, hr, List.cons_append, List.cons.injEq, true_and]
    exact List.drop_append_of_le_length ht

theorem run_onTop (im : Imports) {h0 : History} {sg : Graph} (evs : List Event) :
    ∀ {s : State}, OnTop h0 sg s → OnTop h0 sg (run im s evs) := by
  induction evs with
  | nil => intro s h; exact h
  | cons ev evs ih =>
    intro s h
    have hstep : OnTop h0 sg (step im s ev) := by
      cases ev with
      | move ev => exact move_onTop ev h
      | add loc d => exact add_onTop loc d h
    exact ih hstep

/-- What a call of `behaviorDrawWay` that returns has built. -/
theorem behaviorDrawWay_ok {im : Imports} {c0 : Context} {wayId : EntityId} {index : Nat}
    {mode : Mode} {sg : Graph} {endId : EntityId} {mc : Loc} {s : State}
    (h : behaviorDrawWay im c0 wayId index mode sg endId mc = .ok s) :
    ∃ w, c0.entity wayId = .ok (.way w) ∧
      s = { ctx :=
              { history :=
                  { base := c0.history.base
                    rest :=
                      { graph := (c0.graph.replace (osmNode endId mc) c0.nextOid).replace
                          (.way (w.addNode endId index)) (c0.nextOid + 1)
                        annotation_ := none } ::
                      { graph := c0.graph
                        annotation_ := some (im.t
                          ((if im.isDegenerate (.way w) then "operations.start.annotation."
                            else "operations.continue.annotation.") ++
                              im.geometry c0.graph wayId)) } ::
                      c0.history.rest }
                nextOid := c0.nextOid + 2, nope := c0.nope, mode := c0.mode }
            wayId := wayId, index := index, mode := mode, startGraph := sg,
            origWay := .way w
            annotation_ := im.t
              ((if im.isDegenerate (.way w) then "operations.start.annotation."
                else "operations.continue.annotation.") ++ im.geometry c0.graph wayId)
            _tempEdits := 2, end_ := osmNode endId mc } := by
  unfold behaviorDrawWay at h
  split at h
  · simp at h
  · rename_i origWay hw
    cases origWay with
    | node n =>
      simp [Context.perform, runActions, _actionAddDrawNode, actionNoop] at h
    | way w =>
      refine ⟨w, hw, ?_⟩
      simp [Context.perform, runActions, _actionAddDrawNode, actionNoop, Context.graph,
        History.graph, History.current, osmNode, Entity.id] at h
      rw [← h]
      simp [Context.graph, History.graph, History.current, osmNode, Entity.id]

theorem move_tempEdits (im : Imports) (s : State) (ev : MoveEvent) :
    (move im s ev).state._tempEdits = s._tempEdits := by
  unfold move
  split
  · rfl
  · split
    · rfl
    · split
      · rfl
      · rename_i c _ _ e _
        obtain ⟨b, hb⟩ := checkGeometry_state im { s with ctx := c, end_ := e } true
        rw [hb]

theorem popToStart_of_onTop {h0 : History} {sg : Graph} {s : State} (fuel : Nat)
    (h : OnTop h0 sg s) (hbase : sg ∈ h0.entries.map Entry.graph)
    (hfuel : s.ctx.history.rest.length ≤ fuel) :
    ∃ k, popToStart sg fuel (s.ctx.pop s._tempEdits) = some ((s.ctx.pop s._tempEdits).pop k) ∧
      ((s.ctx.pop s._tempEdits).pop k).graph = sg := by
  obtain ⟨hb, -, -, sess, -, hr, ht⟩ := h
  have hrest : (s.ctx.pop s._tempEdits).history.rest = sess.drop s._tempEdits ++ h0.rest := by
    simp only [Context.pop, History.pop, hr]
    exact List.drop_append_of_le_length ht
  refine popToStart_reaches sg _ _ fuel rfl ?_ ?_
  · simp only [History.entries, hrest, List.map_append, List.mem_append] at hbase ⊢
    rcases hbase with h1 | h1
    · exact Or.inl (Or.inr h1)
    · right
      simpa [Context.pop, History.pop, hb] using h1
  · have : (s.ctx.pop s._tempEdits).history.rest.length ≤ s.ctx.history.rest.length := by
      simp [Context.pop, History.pop]
    omega

theorem run_moves_tempEdits (im : Imports) (evs : List MoveEvent) :
    ∀ s : State, (run im s (evs.map Event.move))._tempEdits = s._tempEdits := by
  induction evs with
  | nil => intro s; rfl
  | cons ev evs ih =>
    intro s
    simp only [List.map_cons, run, List.foldl_cons] at ih ⊢
    rw [ih]
    exact move_tempEdits im s ev

/-! ## Lookups in a graph -/

theorem find_after_replace (l : List Entity) (e : Entity) (id : EntityId) :
    (l.filter (fun x => x.id != e.id) ++ [e]).find? (fun x => x.id == id)
      = if e.id = id then some e else l.find? (fun x => x.id == id) := by
  induction l with
  | nil => by_cases he : e.id = id <;> simp [List.find?_cons, he]
  | cons x xs ih =>
    rw [List.filter_cons]
    by_cases hx : x.id = e.id
    · rw [if_neg (by simp [hx]), ih, List.find?_cons]
      by_cases he : e.id = id
      · simp [he]
      · have hb : (x.id == id) = false := by rw [hx]; simpa using he
        simp only [hb, he, if_false]
    · rw [if_pos (by simp [hx]), List.cons_append, List.find?_cons, ih, List.find?_cons]
      by_cases hxi : x.id = id
      · have hb : (x.id == id) = true := by simpa using hxi
        have hne : ¬ e.id = id := by rw [← hxi]; exact fun h => hx h.symm
        simp only [hb, hne, if_false]
      · have hb : (x.id == id) = false := by simpa using hxi
        simp only [hb]

theorem find_after_remove (l : List Entity) (e : Entity) (id : EntityId) :
    (l.filter (fun x => x.id != e.id)).find? (fun x => x.id == id)
      = if e.id = id then none else l.find? (fun x => x.id == id) := by
  induction l with
  | nil => simp
  | cons x xs ih =>
    rw [List.filter_cons]
    by_cases hx : x.id = e.id
    · rw [if_neg (by simp [hx]), ih, List.find?_cons]
      by_cases he : e.id = id
      · simp [he]
      · have hb : (x.id == id) = false := by rw [hx]; simpa using he
        simp only [hb, he, if_false]
    · rw [if_pos (by simp [hx]), List.find?_cons, ih, List.find?_cons]
      by_cases hxi : x.id = id
      · have hb : (x.id == id) = true := by simpa using hxi
        have hne : ¬ e.id = id := by rw [← hxi]; exact fun h => hx h.symm
        simp only [hb, hne, if_false]
      · have hb : (x.id == id) = false := by simpa using hxi
        simp only [hb]

theorem Graph.hasEntity_replace (g : Graph) (e : Entity) (oid : Nat) (id : EntityId) :
    (g.replace e oid).hasEntity id = if e.id = id then some e else g.hasEntity id :=
  find_after_replace g.entities e id

theorem Graph.hasEntity_remove (g : Graph) (e : Entity) (oid : Nat) (id : EntityId) :
    (g.remove e oid).hasEntity id = if e.id = id then none else g.hasEntity id :=
  find_after_remove g.entities e id

theorem Graph.hasEntity_id {g : Graph} {id : EntityId} {e : Entity}
    (h : g.hasEntity id = some e) : e.id = id := by
  have := List.find?_some h
  simpa using this

theorem Graph.hasEntity_mem {g : Graph} {id : EntityId} {e : Entity}
    (h : g.hasEntity id = some e) : e ∈ g.entities :=
  List.mem_of_find?_eq_some h

theorem Graph.entity_eq_ok {g : Graph} {id : EntityId} {e : Entity} :
    g.entity id = .ok e ↔ g.hasEntity id = some e := by
  unfold Graph.entity
  split <;> simp_all

theorem Graph.mapEntity_ok (g : Graph) (ids : List EntityId)
    (h : ∀ id ∈ ids, (g.hasEntity id).isSome = true) : ∃ xs, g.mapEntity ids = .ok xs := by
  induction ids with
  | nil => exact ⟨[], rfl⟩
  | cons id ids ih =>
    obtain ⟨x, hx⟩ := Option.isSome_iff_exists.mp (h id (by simp))
    obtain ⟨xs, hxs⟩ := ih (fun i hi => h i (by simp [hi]))
    exact ⟨x :: xs, by simp [Graph.mapEntity, Graph.entity, hx, hxs]⟩

theorem Graph.mem_parentWays {g : Graph} {e : Entity} {w : Way} :
    w ∈ g.parentWays e ↔ Entity.way w ∈ g.entities ∧ e.id ∈ w.nodes := by
  unfold Graph.parentWays
  rw [List.mem_filterMap]
  constructor
  · rintro ⟨x, hx, hw⟩
    cases x with
    | node n => simp at hw
    | way v =>
      simp only at hw
      split at hw
      · simp only [Option.some.injEq] at hw
        subst hw
        exact ⟨hx, by assumption⟩
      · simp at hw
  · rintro ⟨hx, hw⟩
    exact ⟨.way w, hx, by simp [hw]⟩

/-- The loop of `isInvalidGeometry` over parent ways whose nodes are all in the
graph returns, and returns true exactly when one of them is closed and flagged. -/
theorem isInvalidGeometryLoop_spec (im : Imports) (entity : Entity) (graph : Graph)
    (skipLast : Bool) (parents : List Way)
    (h : ∀ p ∈ parents, ∃ nodes, graph.mapEntity p.nodes = .ok nodes) :
    ∃ b, isInvalidGeometryLoop im entity graph skipLast parents = .ok b ∧
      (b = true ↔ ∃ p ∈ parents, p.isClosed = true ∧ ∃ nodes,
        graph.mapEntity p.nodes = .ok nodes ∧
        im.geoHasSelfIntersections (if skipLast then nodes.dropLast else nodes) entity.id
          = true) := by
  induction parents with
  | nil => exact ⟨false, rfl, by simp⟩
  | cons p ps ih =>
    obtain ⟨nodes, hn⟩ := h p (by simp)
    obtain ⟨b, hb, hiff⟩ := ih (fun q hq => h q (by simp [hq]))
    unfold isInvalidGeometryLoop
    simp only [hn]
    by_cases hc : (p.isClosed && im.geoHasSelfIntersections
        (if skipLast then nodes.dropLast else nodes) entity.id) = true
    · rw [if_pos hc]
      simp only [Bool.and_eq_true] at hc
      exact ⟨true, rfl, by simpa using Or.inl ⟨hc.1, nodes, hn, hc.2⟩⟩
    · rw [if_neg hc]
      refine ⟨b, hb, ?_⟩
      rw [hiff]
      constructor
      · rintro ⟨q, hq, hq2⟩
        exact ⟨q, by simp [hq], hq2⟩
      · rintro ⟨q, hq, hqc, ns, hns, hgeo⟩
        rcases List.mem_cons.mp hq with rfl | hq
        · rw [hn] at hns
          simp only [Except.ok.injEq] at hns
          subst hns
          exact absurd (by simp [hqc, hgeo]) hc
        · exact ⟨q, hq, hqc, ns, hns, hgeo⟩

/-! ## Move events -/

theorem moveLoop_ok (im : Imports) (graph : Graph) (mouse : Loc) (endId : EntityId)
    (groups : List (List EntityId))
    (h : ∀ group ∈ groups, ∀ id ∈ group, (graph.hasEntity id).isSome = true) :
    ∀ (best : Dist) (loc : Loc), ∃ r, moveLoop im graph mouse endId groups best loc = .ok r := by
  induction groups with
  | nil => intro best loc; exact ⟨_, rfl⟩
  | cons g gs ih =>
    intro best loc
    obtain ⟨xs, hxs⟩ := graph.mapEntity_ok g (h g (by simp))
    have ih1 := ih (fun x hx => h x (by simp [hx]))
    unfold moveLoop
    simp only [hxs]
    split
    · split
      · exact ih1 _ _
      · exact ih1 _ _
    · exact ih1 _ _

theorem moveLoc_ok (im : Imports) (s : State) (ev : MoveEvent)
    (h : ev.TargetsPresent s.ctx.graph) : ∃ loc, moveLoc im s ev = .ok loc := by
  unfold moveLoc
  split
  · exact ⟨_, rfl⟩
  · rename_i hloc
    split
    · rename_i groups hgroups
      obtain ⟨r, hr⟩ := moveLoop_ok im s.ctx.graph ev.mouse s.end_.id groups
        (h hloc groups hgroups) .inf ev.mouseCoordinates
      rw [hr]
      exact ⟨_, rfl⟩
    · exact ⟨_, rfl⟩

/-- Moving a node that the current graph holds replaces the top entry by the
graph with the node at its new location. -/
theorem Context.replace_moveNode (c : Context) (id : EntityId) (loc : Loc) (n : Node)
    (h : c.graph.hasEntity id = some (.node n)) :
    ∃ c1, c.replace [actionMoveNode id loc] = .ok c1 ∧
      c1.graph = c.graph.replace (.node { n with loc := loc }) c.nextOid ∧
      c1.nope = c.nope := by
  have hrun : runActions [actionMoveNode id loc] c.graph c.nextOid =
      .ok (c.graph.replace (.node { n with loc := loc }) c.nextOid, c.nextOid + 1) := by
    simp [runActions, actionMoveNode, Graph.entity, h]
  unfold Context.replace
  simp only [hrun]
  refine ⟨_, rfl, ?_, rfl⟩
  cases hr : c.history.rest <;>
    simp [Context.graph, History.graph, History.current]

theorem Graph.nodesPresent_replace_node {g : Graph} {n m : Node} (oid : Nat)
    (hg : g.NodesPresent) (hn : g.hasEntity m.id = some (.node n)) :
    (g.replace (.node m) oid).NodesPresent ∧
      ∀ id, ((g.replace (.node m) oid).hasEntity id).isSome = (g.hasEntity id).isSome := by
  have hids : ∀ id, ((g.replace (.node m) oid).hasEntity id).isSome
      = (g.hasEntity id).isSome := by
    intro id
    rw [Graph.hasEntity_replace]
    by_cases h : (Entity.node m).id = id
    · rw [if_pos h]
      have : m.id = id := h
      rw [← this, hn]
      rfl
    · rw [if_neg h]
  refine ⟨?_, hids⟩
  intro w hw id hid
  rw [hids]
  have hw1 : Entity.way w ∈ g.entities := by
    simp only [Graph.replace, List.mem_append, List.mem_filter, List.mem_singleton] at hw
    rcases hw with h | h
    · exact h.1
    · cases h
  exact hg w hw1 id hid

/-- A move whose targets are present completes; it keeps the invariant, sets the
flag to the result of the check, and `end` is the node stored in the graph. -/
theorem move_step (im : Imports) (g0 : Graph) (s : State) (ev : MoveEvent)
    (hinv : MoveInv g0 s) (hev : ev.TargetsPresent g0) :
    ∃ s1, move im s ev = { state := s1, thrown := none } ∧ MoveInv g0 s1 ∧
      isInvalidGeometry im s1.end_ s1.ctx.graph true = .ok s1.ctx.nope ∧
      s1.ctx.graph.entity s1.end_.id = .ok s1.end_ ∧
      ∀ loc, moveLoc im s ev = .ok loc → s1.end_.loc = some loc := by
  obtain ⟨hg, ⟨n, hn⟩, hids⟩ := hinv
  have hev1 : ev.TargetsPresent s.ctx.graph := by
    intro h1 groups h2 group h3 id h4
    rw [hids]
    exact hev h1 groups h2 group h3 id h4
  obtain ⟨loc, hloc⟩ := moveLoc_ok im s ev hev1
  obtain ⟨c, hc, hcg, -⟩ := Context.replace_moveNode s.ctx s.end_.id loc n hn
  have hnid : n.id = s.end_.id := Graph.hasEntity_id hn
  have hcn : c.graph.hasEntity s.end_.id = some (.node { n with loc := loc }) := by
    rw [hcg, Graph.hasEntity_replace,
      if_pos (show (Entity.node { n with loc := loc }).id = s.end_.id from hnid)]
  have hcn1 : c.graph.hasEntity n.id = some (.node { n with loc := loc }) := by
    rw [hcg, Graph.hasEntity_replace]
    exact if_pos rfl
  have hce : c.entity s.end_.id = .ok (.node { n with loc := loc }) :=
    Graph.entity_eq_ok.mpr hcn
  obtain ⟨hg1, hids1⟩ := @Graph.nodesPresent_replace_node s.ctx.graph n { n with loc := loc }
    s.ctx.nextOid hg (by rw [show ({ n with loc := loc } : Node).id = s.end_.id from hnid]; exact hn)
  rw [← hcg] at hg1 hids1
  obtain ⟨b, hb, -⟩ := isInvalidGeometryLoop_spec im (.node { n with loc := loc }) c.graph true
    (c.graph.parentWays (.node { n with loc := loc }))
    (fun p hp => c.graph.mapEntity_ok p.nodes (hg1 p (Graph.mem_parentWays.mp hp).1))
  have hb1 : isInvalidGeometry im (.node { n with loc := loc }) c.graph true = .ok b := hb
  refine ⟨{ s with ctx := { c with nope := b }, end_ := .node { n with loc := loc } }, ?_,
    ⟨hg1, ⟨_, hcn1⟩, fun id => (hids1 id).trans (hids id)⟩, hb1,
    Graph.entity_eq_ok.mpr hcn1, ?_⟩
  · unfold move
    simp only [hloc, hc, hce]
    unfold checkGeometry
    simp only [hb1]
  · intro l hl
    rw [hloc] at hl
    simp only [Except.ok.injEq] at hl
    subst hl
    rfl

theorem run_moves_inv (im : Imports) (g0 : Graph) (evs : List MoveEvent) :
    ∀ s : State, MoveInv g0 s → (∀ e ∈ evs, e.TargetsPresent g0) →
      MoveInv g0 (run im s (evs.map Event.move)) := by
  induction evs with
  | nil => intro s h _; exact h
  | cons ev evs ih =>
    intro s h hev
    obtain ⟨s1, hs1, hinv1, -⟩ := move_step im g0 s ev h (hev ev (by simp))
    have : run im s ((ev :: evs).map Event.move) = run im s1 (evs.map Event.move) := by
      simp [run, step, hs1]
    rw [this]
    exact ih s1 hinv1 (fun e he => hev e (by simp [he]))

/-! ## Snap resolution -/

theorem Dist.ne_inf_of_lt {a b : Dist} (h : a.lt b = true) : a ≠ .inf := by
  cases a <;> simp_all [Dist.lt]

theorem Dist.lt_inf {a : Dist} (h : a ≠ .inf) : a.lt .inf = true := by
  cases a <;> simp_all [Dist.lt]

theorem Dist.lt_trans {a b c : Dist} (h1 : a.lt b = true) (h2 : b.lt c = true) :
    a.lt c = true := by
  cases a <;> cases b <;> cases c <;> simp_all [Dist.lt]
  omega

theorem Dist.lt_of_lt_of_not_lt {a b c : Dist} (h1 : a.lt b = true) (h2 : c.lt b = false) :
    a.lt c = true := by
  cases a <;> cases b <;> cases c <;> simp_all [Dist.lt]
  omega

theorem moveLoop_eq_foldl (im : Imports) (graph : Graph) (mouse : Loc) (endId : EntityId)
    (groups : List (List EntityId))
    (h : ∀ group ∈ groups, ∀ id ∈ group, (graph.hasEntity id).isSome = true) :
    ∀ (best : Dist) (loc : Loc), moveLoop im graph mouse endId groups best loc =
      .ok ((edgeChoices im graph mouse endId groups).foldl pickChoice (best, loc)) := by
  induction groups with
  | nil => intro best loc; rfl
  | cons g gs ih =>
    intro best loc
    obtain ⟨xs, hxs⟩ := graph.mapEntity_ok g (h g (by simp))
    have ih1 := ih (fun x hx => h x (by simp [hx]))
    unfold moveLoop
    simp only [hxs, edgeChoices, List.filterMap_cons]
    cases hch : im.geoChooseEdge xs mouse endId with
    | none => simpa [edgeChoices] using ih1 best loc
    | some choice =>
      simp only [List.foldl_cons, pickChoice]
      split
      · simpa [edgeChoices] using ih1 choice.distance choice.loc
      · simpa [edgeChoices] using ih1 best loc

/-- The loop picks the first of the choices of least distance, or keeps the raw
location when no choice has a finite distance. -/
theorem foldl_pickChoice_spec (raw : Loc) (cs : List Choice) :
    ((∀ c ∈ cs, c.distance = .inf) ∧ cs.foldl pickChoice (.inf, raw) = (.inf, raw)) ∨
    ∃ pre c post, cs = pre ++ c :: post ∧ cs.foldl pickChoice (.inf, raw) = (c.distance, c.loc) ∧
      c.distance ≠ .inf ∧ (∀ x ∈ pre, c.distance.lt x.distance = true) ∧
      (∀ x ∈ post, x.distance.lt c.distance = false) := by
  induction cs using List.reverseRecOn with
  | nil => exact Or.inl ⟨by simp, rfl⟩
  | append_singleton cs x ih =>
    rw [List.foldl_append, List.foldl_cons, List.foldl_nil]
    rcases ih with ⟨hall, hr⟩ | ⟨pre, c, post, hcs, hr, hfin, hpre, hpost⟩
    · rw [hr]
      by_cases hx : x.distance = .inf
      · left
        refine ⟨?_, by simp [pickChoice, hx, Dist.lt]⟩
        intro c hc
        rcases List.mem_append.mp hc with h | h
        · exact hall c h
        · simp only [List.mem_singleton] at h
          rw [h]; exact hx
      · right
        refine ⟨cs, x, [], rfl, by simp [pickChoice, Dist.lt_inf hx], hx, ?_, by simp⟩
        intro y hy
        rw [hall y hy]
        exact Dist.lt_inf hx
    · right
      rw [hr]
      by_cases hx : x.distance.lt c.distance = true
      · refine ⟨cs, x, [], rfl, by simp [pickChoice, hx], Dist.ne_inf_of_lt hx, ?_, by simp⟩
        intro y hy
        rw [hcs] at hy
        rcases List.mem_append.mp hy with h | h
        · exact Dist.lt_trans hx (hpre y h)
        · rcases List.mem_cons.mp h with h | h
          · rw [h]; exact hx
          · exact Dist.lt_of_lt_of_not_lt hx (hpost y h)
      · simp only [Bool.not_eq_true] at hx
        refine ⟨pre, c, post ++ [x], by simp [hcs], by simp [pickChoice, hx], hfin, hpre, ?_⟩
        intro y hy
        rcases List.mem_append.mp hy with h | h
        · exact hpost y h
        · simp only [List.mem_singleton] at h
          rw [h]; exact hx

/-- Once `move` has resolved a location and `end` names a node of the current
graph, that node is stored with the location and becomes `end`, whether or not
the geometry check that follows throws. -/
theorem move_writes_loc (im : Imports) (s : State) (ev : MoveEvent) (loc : Loc) (n : Node)
    (hloc : moveLoc im s ev = .ok loc)
    (hend : s.ctx.graph.hasEntity s.end_.id = some (.node n)) :
    (move im s ev).state.end_ = .node { n with loc := loc } ∧
      (move im s ev).state.ctx.graph.hasEntity s.end_.id
        = some (.node { n with loc := loc }) := by
  obtain ⟨c, hc, hcg, -⟩ := Context.replace_moveNode s.ctx s.end_.id loc n hend
  have hnid : n.id = s.end_.id := Graph.hasEntity_id hend
  have hcn : c.graph.hasEntity s.end_.id = some (.node { n with loc := loc }) := by
    rw [hcg, Graph.hasEntity_replace,
      if_pos (show (Entity.node { n with loc := loc }).id = s.end_.id from hnid)]
  have hce : c.entity s.end_.id = .ok (.node { n with loc := loc }) :=
    Graph.entity_eq_ok.mpr hcn
  obtain ⟨b, hb⟩ := checkGeometry_state im
    { s with ctx := c, end_ := .node { n with loc := loc } } true
  constructor
  · unfold move
    simp only [hloc, hc, hce]
    rw [hb]
  · unfold move
    simp only [hloc, hc, hce]
    rw [hb]
    exact hcn

/-! ## Failing lookups and completed checks -/

theorem Graph.mapEntity_error (g : Graph) (ids : List EntityId)
    (h : ∃ id ∈ ids, g.hasEntity id = none) :
    ∃ id, g.mapEntity ids = .error (.entityNotFound id) := by
  induction ids with
  | nil => simp at h
  | cons i is ih =>
    unfold Graph.mapEntity
    cases hi : g.hasEntity i with
    | none => exact ⟨i, by simp [Graph.entity, hi]⟩
    | some x =>
      obtain ⟨id, hid, hnone⟩ := h
      rcases List.mem_cons.mp hid with rfl | hid
      · rw [hi] at hnone; cases hnone
      · obtain ⟨j, hj⟩ := ih ⟨id, hid, hnone⟩
        exact ⟨j, by simp [Graph.entity, hi, hj]⟩

theorem Graph.mapEntity_ok_or_error (g : Graph) (ids : List EntityId) :
    (∃ xs, g.mapEntity ids = .ok xs ∧ ∀ id ∈ ids, (g.hasEntity id).isSome = true) ∨
      ∃ id, g.mapEntity ids = .error (.entityNotFound id) := by
  by_cases h : ∃ id ∈ ids, g.hasEntity id = none
  · exact Or.inr (g.mapEntity_error ids h)
  · left
    have hall : ∀ id ∈ ids, (g.hasEntity id).isSome = true := by
      intro id hid
      cases hx : g.hasEntity id with
      | none => exact absurd ⟨id, hid, hx⟩ h
      | some x => rfl
    obtain ⟨xs, hxs⟩ := g.mapEntity_ok ids hall
    exact ⟨xs, hxs, hall⟩

theorem moveLoop_error (im : Imports) (graph : Graph) (mouse : Loc) (endId : EntityId)
    (groups : List (List EntityId))
    (h : ∃ group ∈ groups, ∃ id ∈ group, graph.hasEntity id = none) :
    ∀ (best : Dist) (loc : Loc), ∃ id,
      moveLoop im graph mouse endId groups best loc = .error (.entityNotFound id) := by
  induction groups with
  | nil => simp at h
  | cons g gs ih =>
    intro best loc
    unfold moveLoop
    rcases graph.mapEntity_ok_or_error g with ⟨xs, hxs, hall⟩ | ⟨id, hid⟩
    · have h1 : ∃ group ∈ gs, ∃ id ∈ group, graph.hasEntity id = none := by
        obtain ⟨group, hgroup, id, hid, hnone⟩ := h
        rcases List.mem_cons.mp hgroup with rfl | hgroup
        · have := hall id hid
          rw [hnone] at this
          cases this
        · exact ⟨group, hgroup, id, hid, hnone⟩
      simp only [hxs]
      split
      · split
        · exact ih h1 _ _
        · exact ih h1 _ _
      · exact ih h1 _ _
    · exact ⟨id, by simp only [hid]⟩

theorem isInvalidGeometryLoop_true (im : Imports) (entity : Entity) (graph : Graph)
    (skipLast : Bool) (parents : List Way) (b : Bool) (p : Way) (nodes : List Entity)
    (h : isInvalidGeometryLoop im entity graph skipLast parents = .ok b) (hp : p ∈ parents)
    (hclosed : p.isClosed = true) (hnodes : graph.mapEntity p.nodes = .ok nodes)
    (hgeo : im.geoHasSelfIntersections (if skipLast then nodes.dropLast else nodes) entity.id
      = true) : b = true := by
  induction parents with
  | nil => cases hp
  | cons q qs ih =>
    unfold isInvalidGeometryLoop at h
    cases hq : graph.mapEntity q.nodes with
    | error e => simp [hq] at h
    | ok ns =>
      simp only [hq] at h
      by_cases hc : (q.isClosed && im.geoHasSelfIntersections
          (if skipLast then ns.dropLast else ns) entity.id) = true
      · rw [if_pos hc] at h
        simp only [Except.ok.injEq] at h
        exact h.symm
      · rw [if_neg hc] at h
        rcases List.mem_cons.mp hp with rfl | hp
        · rw [hnodes] at hq
          simp only [Except.ok.injEq] at hq
          subst hq
          exact absurd (by simp [hclosed, hgeo]) hc
        · exact ih h hp

theorem checkGeometry_completes {im : Imports} {s s1 : State} {skipLast : Bool}
    (h : checkGeometry im s skipLast = { state := s1, thrown := none }) :
    isInvalidGeometry im s1.end_ s1.ctx.graph skipLast = .ok s1.ctx.nope ∧
      s1.wayId = s.wayId := by
  unfold checkGeometry at h
  split at h
  · simp at h
  · rename_i b hb
    simp only [Outcome.mk.injEq, and_true] at h
    subst h
    exact ⟨hb, rfl⟩

theorem move_completes {im : Imports} {s s1 : State} {ev : MoveEvent}
    (h : move im s ev = { state := s1, thrown := none }) :
    isInvalidGeometry im s1.end_ s1.ctx.graph true = .ok s1.ctx.nope := by
  unfold move at h
  split at h
  · simp at h
  · split at h
    · simp at h
    · split at h
      · simp at h
      · exact (checkGeometry_completes h).1

theorem commit_completes {im : Imports} {s s1 : State} {actions : State → List Action}
    (h : commit im s actions = { state := s1, thrown := none }) :
    isInvalidGeometry im s1.end_ s1.ctx.graph false = .ok s1.ctx.nope := by
  unfold commit at h
  simp only at h
  split at h
  · simp at h
  · rename_i c hc
    unfold Outcome.andThen at h
    split at h
    · rename_i e he
      rw [h] at he
      simp at he
    · rename_i hnone
      simp only [Outcome.mk.injEq, and_true] at h
      have hcg := @checkGeometry_completes im { s with ctx := c, _tempEdits := 0 }
        (checkGeometry im { s with ctx := c, _tempEdits := 0 } false).state false
        (by
          cases hcheck : checkGeometry im { s with ctx := c, _tempEdits := 0 } false with
          | mk st th =>
            rw [hcheck] at hnone
            simp only at hnone
            subst hnone
            rfl)
      subst h
      exact hcg.1

/-! ## Finishing -/

theorem popToStart_nope (sg : Graph) (b : Bool) :
    ∀ (fuel : Nat) (c : Context), popToStart sg fuel { c with nope := b }
      = (popToStart sg fuel c).map (fun c1 => { c1 with nope := b }) := by
  intro fuel
  induction fuel with
  | zero =>
    intro c
    have hg : ({ c with nope := b } : Context).graph = c.graph := rfl
    unfold popToStart
    rw [hg]
    split <;> rfl
  | succ n ih =>
    intro c
    have hg : ({ c with nope := b } : Context).graph = c.graph := rfl
    unfold popToStart
    rw [hg]
    split
    · rfl
    · exact ih (c.pop 1)

/-- A call of `cancel` ends on `startGraph`, with the counter at 0, in browse mode. -/
theorem cancel_some {fuel : Nat} {s s1 : State} (h : cancel fuel s = some s1) :
    s1.ctx.graph = s.startGraph ∧ s1._tempEdits = 0 ∧ s1.ctx.mode = .browse ∧
      s1.ctx.nope = false := by
  unfold cancel at h
  simp only at h
  split at h
  · simp at h
  · rename_i c hc
    simp only [Option.some.injEq] at h
    subst h
    refine ⟨?_, rfl, rfl, rfl⟩
    have hgraph : ∀ (fuel : Nat) (c0 c1 : Context),
        popToStart s.startGraph fuel c0 = some c1 → c1.graph = s.startGraph := by
      intro fuel
      induction fuel with
      | zero =>
        intro c0 c1 h0
        unfold popToStart at h0
        split at h0
        · simp only [Option.some.injEq] at h0
          subst h0
          assumption
        · simp at h0
      | succ n ih =>
        intro c0 c1 h0
        unfold popToStart at h0
        split at h0
        · simp only [Option.some.injEq] at h0
          subst h0
          assumption
        · exact ih _ _ h0
    exact hgraph fuel _ c hc

/-- A blocked `finish` sets the flag and returns. -/
theorem finish_blocked (im : Imports) (fuel : Nat) (s : State)
    (h : isInvalidGeometry im s.end_ s.ctx.graph false = .ok true) :
    finish im fuel s =
      some { state := { s with ctx := { s.ctx with nope := true } }, thrown := none } := by
  unfold finish checkGeometry
  simp [h]

/-- A `finish` whose check throws stops there. -/
theorem finish_throws (im : Imports) (fuel : Nat) (s : State) (e : Err)
    (h : isInvalidGeometry im s.end_ s.ctx.graph false = .error e) :
    finish im fuel s = some { state := s, thrown := some e } := by
  unfold finish checkGeometry
  simp [h]

/-- A `finish` that is not blocked clears the flag, pops the temporary edits and
then cancels or selects the way. -/
theorem finish_unblocked (im : Imports) (fuel : Nat) (s : State)
    (h : isInvalidGeometry im s.end_ s.ctx.graph false = .ok false) :
    finish im fuel s =
      match (s.ctx.pop s._tempEdits).hasEntity s.wayId with
      | none => (cancel fuel s).map (fun s3 => { state := s3, thrown := none })
      | some way =>
        if im.isDegenerate way then
          (cancel fuel s).map (fun s3 => { state := s3, thrown := none })
        else
          some { state :=
                  { s with
                    ctx := { history := s.ctx.history.pop s._tempEdits, nextOid := s.ctx.nextOid,
                             nope := false, mode := .select [s.wayId] true }
                    _tempEdits := 0 }
                 thrown := none } := by
  have hcancel : cancel fuel
      { s with ctx := ({ s.ctx with nope := false } : Context).pop s._tempEdits, _tempEdits := 0 }
      = cancel fuel s := by
    unfold cancel
    simp only [Context.pop_pop, Nat.add_zero]
    have hp : ({ s.ctx with nope := false } : Context).pop s._tempEdits
        = { s.ctx.pop s._tempEdits with nope := false } := rfl
    rw [hp, popToStart_nope]
    cases popToStart s.startGraph fuel (s.ctx.pop s._tempEdits) <;> rfl
  have hent : (({ s.ctx with nope := false } : Context).pop s._tempEdits).hasEntity s.wayId
      = (s.ctx.pop s._tempEdits).hasEntity s.wayId := rfl
  unfold finish checkGeometry
  simp only [h, Bool.false_eq_true, if_false, hent, hcancel]
  cases (s.ctx.pop s._tempEdits).hasEntity s.wayId with
  | none => rfl
  | some way =>
    simp only
    split
    · rfl
    · rfl

/-! ## The unwinding loop -/

theorem History.current_mem (h : History) : h.graph ∈ h.entries.map Entry.graph := by
  unfold History.graph History.current History.entries
  cases h.rest <;> simp

theorem popToStart_none (sg : Graph) :
    ∀ (fuel : Nat) (c : Context), sg ∉ c.history.entries.map Entry.graph →
      popToStart sg fuel c = none := by
  intro fuel
  induction fuel with
  | zero =>
    intro c hc
    have hg : c.graph ≠ sg := fun h => hc (h ▸ c.history.current_mem)
    simp [popToStart, hg]
  | succ n ih =>
    intro c hc
    have hg : c.graph ≠ sg := fun h => hc (h ▸ c.history.current_mem)
    have hsub : sg ∉ (c.pop 1).history.entries.map Entry.graph := by
      intro hmem
      apply hc
      simp only [History.entries, Context.pop, History.pop, List.map_append, List.mem_append,
        List.mem_map] at hmem ⊢
      rcases hmem with ⟨e, he, heq⟩ | h
      · exact Or.inl ⟨e, List.mem_of_mem_drop he, heq⟩
      · exact Or.inr h
    simp only [popToStart, hg, if_false]
    exact ih (c.pop 1) hsub

/-- With fuel for the entries above the bottom one, the loop stops at the topmost
entry whose graph is `startGraph`. -/
theorem popToStart_topmost (sg : Graph) :
    ∀ (rest : List Entry) (c : Context),
      c.history.rest = rest → sg ∈ c.history.entries.map Entry.graph →
      ∃ k, (c.pop k).graph = sg ∧ (∀ j, j < k → (c.pop j).graph ≠ sg) ∧
        ∀ fuel, rest.length ≤ fuel → popToStart sg fuel c = some (c.pop k) := by
  intro rest
  induction rest with
  | nil =>
    intro c hr hmem
    have hg : c.graph = sg := by
      simp [History.entries, hr] at hmem
      simp [Context.graph, History.graph, History.current, hr, hmem]
    refine ⟨0, by rw [Context.pop_zero]; exact hg, fun j hj => absurd hj (by omega), ?_⟩
    intro fuel _
    rw [Context.pop_zero]
    cases fuel <;> simp [popToStart, hg]
  | cons e r ih =>
    intro c hr hmem
    have hcg : c.graph = e.graph := by
      simp [Context.graph, History.graph, History.current, hr]
    by_cases hg : e.graph = sg
    · refine ⟨0, by rw [Context.pop_zero, hcg]; exact hg, fun j hj => absurd hj (by omega), ?_⟩
      intro fuel _
      rw [Context.pop_zero]
      cases fuel <;> simp [popToStart, hcg, hg]
    · have hr1 : (c.pop 1).history.rest = r := by simp [Context.pop, History.pop, hr]
      have hmem1 : sg ∈ (c.pop 1).history.entries.map Entry.graph := by
        simp only [History.entries, hr, List.cons_append, List.map_cons, List.mem_cons] at hmem
        rcases hmem with h | h
        · exact absurd h.symm hg
        · simpa [History.entries, Context.pop, History.pop, hr] using h
      obtain ⟨k, hkg, hmin, hk⟩ := ih (c.pop 1) hr1 hmem1
      refine ⟨1 + k, by rw [← Context.pop_pop]; exact hkg, ?_, ?_⟩
      · intro j hj
        cases j with
        | zero => rw [Context.pop_zero, hcg]; exact hg
        | succ i =>
          have := hmin i (by omega)
          rw [Context.pop_pop, Nat.add_comm] at this
          exact this
      · intro fuel hfuel
        obtain ⟨f, rfl⟩ : ∃ f, fuel = f + 1 := ⟨fuel - 1, by simp at hfuel; omega⟩
        rw [← Context.pop_pop, ← hk f (by simp at hfuel; omega)]
        simp [popToStart, hcg, hg]

/-! ## Commits -/

theorem Context.graph_perform {c c1 : Context} {actions : List Action}
    {annotation_ : Option Annotation} (h : c.perform actions annotation_ = .ok c1) :
    runActions actions c.graph c.nextOid = .ok (c1.graph, c1.nextOid) := by
  unfold Context.perform at h
  split at h
  · simp at h
  · rename_i g n hrun
    simp only [Except.ok.injEq] at h
    subst h
    exact hrun

/-- A check of an entity that the graph does not hold cannot come out true: a
parent way of the entity makes the lookup of its nodes throw. -/
theorem isInvalidGeometry_of_removed (im : Imports) (entity : Entity) (graph : Graph)
    (skipLast : Bool) (hgone : graph.hasEntity entity.id = none) :
    (graph.parentWays entity = [] ∧ isInvalidGeometry im entity graph skipLast = .ok false) ∨
      ∃ id, isInvalidGeometry im entity graph skipLast = .error (.entityNotFound id) := by
  unfold isInvalidGeometry
  cases hp : graph.parentWays entity with
  | nil => exact Or.inl ⟨rfl, rfl⟩
  | cons p ps =>
    right
    have hmem : entity.id ∈ p.nodes :=
      (Graph.mem_parentWays.mp (hp ▸ List.mem_cons_self p ps)).2
    obtain ⟨id, hid⟩ := graph.mapEntity_error p.nodes ⟨entity.id, hmem, hgone⟩
    exact ⟨id, by unfold isInvalidGeometryLoop; simp only [hid]⟩

/-- What `addNode` builds when it is not blocked and `origWay` is a way. -/
theorem addNode_state (im : Imports) (s : State) (node : Entity) (w : Way)
    (hnope : s.ctx.nope = false) (hway : s.origWay = .way w) :
    ∃ b m, (addNode im s node).state =
      { s with
        ctx :=
          { history :=
              { base := s.ctx.history.base
                rest :=
                  { graph := ((s.ctx.pop s._tempEdits).graph.replace
                      (.way (w.addNode node.id s.index)) s.ctx.nextOid).remove s.end_
                      (s.ctx.nextOid + 1)
                    annotation_ := some s.annotation_ } :: s.ctx.history.rest.drop s._tempEdits }
            nextOid := s.ctx.nextOid + 2, nope := b, mode := m }
        _tempEdits := 0 } ∧
      (b = false ∨ (addNode im s node).thrown = none) := by
  rw [addNode_eq_commit, if_neg (by simp [hnope])]
  have hperf : (s.ctx.pop s._tempEdits).perform
      [_actionReplaceDrawNode s.origWay s.end_ s.index node] (some s.annotation_)
      = .ok
        { history :=
            { base := s.ctx.history.base
              rest :=
                { graph := ((s.ctx.pop s._tempEdits).graph.replace
                    (.way (w.addNode node.id s.index)) s.ctx.nextOid).remove s.end_
                    (s.ctx.nextOid + 1)
                  annotation_ := some s.annotation_ } :: s.ctx.history.rest.drop s._tempEdits }
          nextOid := s.ctx.nextOid + 2, nope := s.ctx.nope, mode := s.ctx.mode } := by
    simp [Context.perform, runActions, _actionReplaceDrawNode, hway, Context.pop, History.pop]
  unfold commit
  simp only [hperf]
  unfold Outcome.andThen checkGeometry
  split <;> split <;> simp_all [enter]

/-- The graph `addNode` commits does not hold the provisional node. -/
theorem Graph.hasEntity_replaceDrawNode (g : Graph) (way1 end_ : Entity) (n : Nat) :
    ((g.replace way1 n).remove end_ (n + 1)).hasEntity end_.id = none := by
  rw [Graph.hasEntity_remove, if_pos rfl]

/-- The result of an `addNode` that is not blocked, by the result of the check
of the geometry on the graph it has committed. -/
theorem addNode_outcome (im : Imports) (s : State) (node : Entity) (w : Way)
    (hnope : s.ctx.nope = false) (hway : s.origWay = .way w) :
    addNode im s node =
      (checkGeometry im
        { s with
          ctx :=
            { history :=
                { base := s.ctx.history.base
                  rest :=
                    { graph := ((s.ctx.pop s._tempEdits).graph.replace
                        (.way (w.addNode node.id s.index)) s.ctx.nextOid).remove s.end_
                        (s.ctx.nextOid + 1)
                      annotation_ := some s.annotation_ } ::
                    s.ctx.history.rest.drop s._tempEdits }
              nextOid := s.ctx.nextOid + 2, nope := false, mode := s.ctx.mode }
          _tempEdits := 0 } false).andThen
        (fun s3 => { state := enter s3 s3.mode, thrown := none }) := by
  rw [addNode_eq_commit, if_neg (by simp [hnope])]
  unfold commit
  simp [Context.perform, runActions, _actionReplaceDrawNode, hway, Context.pop, History.pop,
    hnope]

/-! ## Moves of a fresh session -/

theorem move_moved (im : Imports) (s0 s : State) (ev : MoveEvent) (h : Moved s0 s) :
    Moved s0 (move im s ev).state := by
  obtain ⟨h1, h2, h3, h4, h5, h6, h7, h8, h9, e, h10⟩ := h
  unfold move
  split
  · exact ⟨h1, h2, h3, h4, h5, h6, h7, h8, h9, e, h10⟩
  · split
    · exact ⟨h1, h2, h3, h4, h5, h6, h7, h8, h9, e, h10⟩
    · rename_i c hc
      obtain ⟨hcb, e1, hcr⟩ := Context.replace_history hc h10
      split
      · exact ⟨h1, h2, h3, h4, h5, h6, h7, h8, hcb.trans h9, e1, hcr⟩
      · rename_i e2 he2
        obtain ⟨b, hb⟩ := checkGeometry_state im { s with ctx := c, end_ := e2 } true
        rw [hb]
        have hid : e2.id = s.end_.id := Graph.hasEntity_id (Graph.entity_eq_ok.mp he2)
        exact ⟨h1, h2, h3, h4, h5, h6, h7, hid.trans h8, hcb.trans h9, e1, hcr⟩

theorem move_endStored (im : Imports) (s : State) (ev : MoveEvent) (h : EndStored s) :
    EndStored (move im s ev).state := by
  obtain ⟨n, hn, hstored⟩ := h
  cases hloc : moveLoc im s ev with
  | error e =>
    have : move im s ev = { state := s, thrown := some e } := by
      unfold move
      simp only [hloc]
    rw [this]
    exact ⟨n, hn, hstored⟩
  | ok loc =>
    obtain ⟨h1, h2⟩ := move_writes_loc im s ev loc n hloc hstored
    refine ⟨{ n with loc := loc }, h1, ?_⟩
    have hid : (move im s ev).state.end_.id = s.end_.id := by
      rw [h1, hn]
      rfl
    rw [hid]
    exact h2

theorem run_moves_moved (im : Imports) (s0 : State) (evs : List MoveEvent) :
    ∀ s : State, Moved s0 s → EndStored s →
      Moved s0 (run im s (evs.map Event.move)) ∧ EndStored (run im s (evs.map Event.move)) := by
  induction evs with
  | nil => intro s h1 h2; exact ⟨h1, h2⟩
  | cons ev evs ih =>
    intro s h1 h2
    exact ih (move im s ev).state (move_moved im s0 s ev h1) (move_endStored im s ev h2)

/-- What `add` builds when it is not blocked, on a session that has only seen
moves since it was started on `c0`. -/
theorem add_state (im : Imports) (s : State) (loc : Loc) (d : Option Datum) (w : Way)
    (hd : datumNope d = false) (hnope : s.ctx.nope = false) (hway : s.origWay = .way w) :
    ∃ b m, (add im s loc d).state =
      { s with
        ctx :=
          { history :=
              { base := s.ctx.history.base
                rest :=
                  { graph := ((s.ctx.pop s._tempEdits).graph.replace s.end_ s.ctx.nextOid).replace
                      (.way (w.addNode s.end_.id s.index)) (s.ctx.nextOid + 1)
                    annotation_ := some s.annotation_ } :: s.ctx.history.rest.drop s._tempEdits }
            nextOid := s.ctx.nextOid + 2, nope := b, mode := m }
        _tempEdits := 0 } := by
  rw [add_eq_commit, if_neg (by simp [hd, hnope])]
  have hperf : (s.ctx.pop s._tempEdits).perform
      [_actionAddDrawNode s.origWay s.end_ s.index] (some s.annotation_)
      = .ok
        { history :=
            { base := s.ctx.history.base
              rest :=
                { graph := ((s.ctx.pop s._tempEdits).graph.replace s.end_ s.ctx.nextOid).replace
                    (.way (w.addNode s.end_.id s.index)) (s.ctx.nextOid + 1)
                  annotation_ := some s.annotation_ } :: s.ctx.history.rest.drop s._tempEdits }
          nextOid := s.ctx.nextOid + 2, nope := s.ctx.nope, mode := s.ctx.mode } := by
    simp [Context.perform, runActions, _actionAddDrawNode, hway, Context.pop, History.pop]
  obtain ⟨b, m, hs⟩ := commit_state im s
    (fun s2 => [_actionAddDrawNode s2.origWay s2.end_ s2.index]) _ hperf
  exact ⟨b, m, hs⟩

/-! ## The target way under moves and commits -/

theorem Way.mem_addNode (w : Way) (id : EntityId) (index : Nat) :
    id ∈ (w.addNode id index).nodes ∧ ∀ x ∈ w.nodes, x ∈ (w.addNode id index).nodes := by
  constructor
  · simp [Way.addNode]
  · intro x hx
    have h : x ∈ w.nodes.take index ++ w.nodes.drop index := by
      rw [List.take_append_drop]; exact hx
    simp only [Way.addNode, List.mem_append, List.mem_cons] at h ⊢
    rcases h with h | h
    · exact Or.inl h
    · exact Or.inr (Or.inr h)

theorem Context.replace_moveNode_inv {c c1 : Context} {id : EntityId} {loc : Loc}
    (h : c.replace [actionMoveNode id loc] = .ok c1) :
    ∃ n, c.graph.hasEntity id = some (.node n) ∧
      c1.graph = c.graph.replace (.node { n with loc := loc }) c.nextOid := by
  cases hent : c.graph.hasEntity id with
  | none =>
    simp [Context.replace, runActions, actionMoveNode, Graph.entity, hent] at h
  | some e =>
    cases e with
    | way v =>
      simp [Context.replace, runActions, actionMoveNode, Graph.entity, hent] at h
    | node n =>
      obtain ⟨c2, hc2, hg, -⟩ := Context.replace_moveNode c id loc n hent
      rw [h] at hc2
      simp only [Except.ok.injEq] at hc2
      subst hc2
      exact ⟨n, rfl, hg⟩

theorem move_targetHoldsEnd (im : Imports) (w0 : Way) (endId : EntityId) (s : State)
    (ev : MoveEvent) (h : TargetHoldsEnd w0 endId s) :
    TargetHoldsEnd w0 endId (move im s ev).state := by
  obtain ⟨h1, h2, h3, h4, h5⟩ := h
  unfold move
  split
  · exact ⟨h1, h2, h3, h4, h5⟩
  · split
    · exact ⟨h1, h2, h3, h4, h5⟩
    · rename_i c hc
      obtain ⟨n, hn, hcg⟩ := Context.replace_moveNode_inv hc
      have hnid : n.id = s.end_.id := Graph.hasEntity_id hn
      have hway : c.graph.hasEntity s.wayId = some (.way (w0.addNode endId s.index)) := by
        rw [hcg, Graph.hasEntity_replace, if_neg, h5]
        intro hid
        exact h4 ((h3.symm.trans hnid.symm).trans hid)
      split
      · exact ⟨h1, h2, h3, h4, hway⟩
      · rename_i e2 he2
        obtain ⟨b, hb⟩ := checkGeometry_state im { s with ctx := c, end_ := e2 } true
        rw [hb]
        have hid : e2.id = s.end_.id := Graph.hasEntity_id (Graph.entity_eq_ok.mp he2)
        exact ⟨h1, h2, hid.trans h3, h4, hway⟩

theorem add_targetHoldsEnd (im : Imports) (w0 : Way) (endId : EntityId) (s : State)
    (loc : Loc) (d : Option Datum) (h : TargetHoldsEnd w0 endId s) :
    TargetHoldsEnd w0 endId (add im s loc d).state := by
  obtain ⟨h1, h2, h3, h4, h5⟩ := h
  by_cases hguard : (datumNope d || s.ctx.nope) = true
  · rw [add_eq_commit, if_pos hguard]
    exact ⟨h1, h2, h3, h4, h5⟩
  · simp only [Bool.or_eq_true, not_or, Bool.not_eq_true] at hguard
    obtain ⟨b, m, hs⟩ := add_state im s loc d w0 hguard.1 hguard.2 h1
    rw [hs]
    refine ⟨h1, h2, h3, h4, ?_⟩
    show Graph.hasEntity (((s.ctx.pop s._tempEdits).graph.replace s.end_ s.ctx.nextOid).replace
      (.way (w0.addNode s.end_.id s.index)) (s.ctx.nextOid + 1)) s.wayId = _
    rw [Graph.hasEntity_replace, h3]
    exact if_pos h2

theorem run_targetHoldsEnd (im : Imports) (w0 : Way) (endId : EntityId) (evs : List Event) :
    ∀ s : State, TargetHoldsEnd w0 endId s → TargetHoldsEnd w0 endId (run im s evs) := by
  induction evs with
  | nil => intro s h; exact h
  | cons ev evs ih =>
    intro s h
    have hstep : TargetHoldsEnd w0 endId (step im s ev) := by
      cases ev with
      | move ev => exact move_targetHoldsEnd im w0 endId s ev h
      | add loc d => exact add_targetHoldsEnd im w0 endId s loc d h
    exact ih (step im s ev) hstep

theorem behaviorDrawWay_targetHoldsEnd {im : Imports} {c0 : Context} {wayId : EntityId}
    {index : Nat} {mode : Mode} {sg : Graph} {endId : EntityId} {mc : Loc} {s : State}
    (h : behaviorDrawWay im c0 wayId index mode sg endId mc = .ok s) (hfresh : endId ≠ wayId) :
    ∃ w0, TargetHoldsEnd w0 endId s ∧ s.wayId = wayId := by
  obtain ⟨w, hw, rfl⟩ := behaviorDrawWay_ok h
  have hwid : w.id = wayId := Graph.hasEntity_id (Graph.entity_eq_ok.mp hw)
  refine ⟨w, ⟨rfl, hwid, rfl, hfresh, ?_⟩, rfl⟩
  show Graph.hasEntity ((c0.graph.replace (osmNode endId mc) c0.nextOid).replace
    (.way (w.addNode endId index)) (c0.nextOid + 1)) wayId = _
  rw [Graph.hasEntity_replace]
  exact if_pos hwid

/-- A commit that completes has performed its actions on the graph under the
temporary edits; `end` and `wayId` are as before. -/
theorem commit_inv {im : Imports} {s s1 : State} {actions : State → List Action}
    (h : commit im s actions = { state := s1, thrown := none }) :
    ∃ n1, runActions (actions { s with ctx := s.ctx.pop s._tempEdits, _tempEdits := 0 })
        (s.ctx.pop s._tempEdits).graph s.ctx.nextOid = .ok (s1.ctx.graph, n1) ∧
      s1.end_ = s.end_ ∧ s1.wayId = s.wayId := by
  cases hperf : (s.ctx.pop s._tempEdits).perform
      (actions { s with ctx := s.ctx.pop s._tempEdits, _tempEdits := 0 })
      (some s.annotation_) with
  | error e =>
    unfold commit at h
    simp only [hperf] at h
    cases h
  | ok c =>
    obtain ⟨b, m, hs⟩ := commit_state im s actions c hperf
    have hs1 : s1 = (commit im s actions).state := by rw [h]
    rw [hs] at hs1
    subst hs1
    have hg := Context.graph_perform hperf
    exact ⟨c.nextOid, hg, rfl, rfl⟩

/-- The sample midpoint action keeps the members of every way. -/
theorem gridImports_midpointKeepsNodes : gridImports.MidpointKeepsNodes := by
  intro loc edge node g n g1 n1 h id v v1 hv hv1 x hx
  simp only [gridImports, gridAddMidpoint, Except.ok.injEq, Prod.mk.injEq] at h
  obtain ⟨rfl, -⟩ := h
  have hid : ∀ e : Entity,
      (match e with
        | .way w =>
          match (w.nodes.zip w.nodes.tail).indexOf? edge with
          | some i => Entity.way (w.addNode node.id (i + 1))
          | none => e
        | .node _ => e).id = e.id := by
    intro e
    cases e with
    | node m => rfl
    | way w =>
      simp only
      split <;> rfl
  unfold Graph.hasEntity at hv1
  simp only [List.find?_map] at hv1
  have hcomp : ((fun e : Entity => e.id == id) ∘ fun e : Entity =>
      match e with
      | .way w =>
        match (w.nodes.zip w.nodes.tail).indexOf? edge with
        | some i => Entity.way (w.addNode node.id (i + 1))
        | none => e
      | .node _ => e) = fun e : Entity => e.id == id := by
    funext e
    simp only [Function.comp, hid e]
  rw [hcomp] at hv1
  have hfind : (g.replace (.node { id := node.id, loc := loc }) n).entities.find?
      (fun e => e.id == id)
      = if (Entity.node { id := node.id, loc := loc }).id = id
        then some (.node { id := node.id, loc := loc }) else g.hasEntity id :=
    Graph.hasEntity_replace g _ n id
  rw [hfind] at hv1
  by_cases hmoved : (Entity.node { id := node.id, loc := loc }).id = id
  · rw [if_pos hmoved] at hv1
    simp at hv1
  · rw [if_neg hmoved, hv] at hv1
    simp only [Option.map_some', Option.some.injEq] at hv1
    split at hv1
    · simp only [Entity.way.injEq] at hv1
      subst hv1
      exact (Way.mem_addNode v node.id _).2 x hx
    · simp only [Entity.way.injEq] at hv1
      subst hv1
      exact hx

/-! ## The claims -/

/-- C1: for a session started on a history that holds `startGraph`, after any
finite sequence of move and add events `drawWay.cancel` returns (given fuel for
the entries of the history) and leaves the current graph of the store equal to
`startGraph` and `_tempEdits` equal to 0. -/
theorem cancel_restores_startGraph (im : Imports) (c0 : Context) (wayId : EntityId)
    (index : Nat) (mode : Mode) (startGraph : Graph) (endId : EntityId) (mc : Loc) (s0 : State)
    (evs : List Event) (fuel : Nat)
    (hstart : behaviorDrawWay im c0 wayId index mode startGraph endId mc = .ok s0)
    (hbase : startGraph ∈ c0.history.entries.map Entry.graph)
    (hfuel : (run im s0 evs).ctx.history.rest.length ≤ fuel) :
    ∃ s1, cancel fuel (run im s0 evs) = some s1 ∧ s1.ctx.graph = startGraph ∧
      s1._tempEdits = 0 := by
  have hinv := run_onTop im evs (behaviorDrawWay_onTop hstart)
  obtain ⟨k, hk, hg⟩ := popToStart_of_onTop fuel hinv hbase hfuel
  have hsg : (run im s0 evs).startGraph = startGraph := hinv.2.1
  unfold cancel
  simp only [hsg, hk]
  exact ⟨_, rfl, by simpa [enter, Context.graph] using hg, rfl⟩

theorem cancel_restores_startGraph_witness :
    ∃ s1, cancel 3 (run gridImports lineSession
        [.move ⟨none, (1, 1), (7, 7)⟩, .add (0, 0) none, .move ⟨none, (1, 1), (8, 8)⟩]) = some s1 ∧
      s1.ctx.graph = lineGraph ∧ s1._tempEdits = 0 :=
  cancel_restores_startGraph gridImports lineContext 10 2 (.draw 0) lineGraph 99 (5, 5)
    lineSession [.move ⟨none, (1, 1), (7, 7)⟩, .add (0, 0) none, .move ⟨none, (1, 1), (8, 8)⟩] 3
    (by decide) (by decide) (by decide)

/-- C2: for a session started on a history that holds `startGraph` and interrupted
after any number of move events and no commit, `drawWay.off` returns (given fuel
for the entries of the history) and leaves the current graph of the store equal
to `startGraph`. -/
theorem off_restores_startGraph (im : Imports) (c0 : Context) (wayId : EntityId)
    (index : Nat) (mode : Mode) (startGraph : Graph) (endId : EntityId) (mc : Loc) (s0 : State)
    (evs : List MoveEvent) (fuel : Nat)
    (hstart : behaviorDrawWay im c0 wayId index mode startGraph endId mc = .ok s0)
    (hbase : startGraph ∈ c0.history.entries.map Entry.graph)
    (hfuel : (run im s0 (evs.map Event.move)).ctx.history.rest.length ≤ fuel) :
    ∃ s1, off fuel (run im s0 (evs.map Event.move)) = some s1 ∧ s1.ctx.graph = startGraph := by
  have hinv := run_onTop im (evs.map Event.move) (behaviorDrawWay_onTop hstart)
  obtain ⟨k, hk, hg⟩ := popToStart_of_onTop fuel hinv hbase hfuel
  have hsg : (run im s0 (evs.map Event.move)).startGraph = startGraph := hinv.2.1
  have ht : (run im s0 (evs.map Event.move))._tempEdits = 2 := by
    rw [run_moves_tempEdits]
    obtain ⟨w, -, rfl⟩ := behaviorDrawWay_ok hstart
    rfl
  unfold off
  rw [if_pos (by rw [ht]; decide)]
  simp only [hsg, hk]
  exact ⟨_, rfl, hg⟩

theorem off_restores_startGraph_witness :
    ∃ s1, off 2 (run gridImports lineSession
        ([⟨none, (1, 1), (7, 7)⟩, ⟨none, (1, 1), (8, 8)⟩].map Event.move)) = some s1 ∧
      s1.ctx.graph = lineGraph :=
  off_restores_startGraph gridImports lineContext 10 2 (.draw 0) lineGraph 99 (5, 5)
    lineSession [⟨none, (1, 1), (7, 7)⟩, ⟨none, (1, 1), (8, 8)⟩] 2
    (by decide) (by decide) (by decide)

/-- C3: a session constructed with `startGraph` equal to the current graph of the
store and cancelled at once leaves the edit history, the whole stack of entries,
as it was before the session was constructed; the loop of `cancel` pops nothing. -/
theorem start_cancel_history (im : Imports) (c0 : Context) (wayId : EntityId) (index : Nat)
    (mode : Mode) (endId : EntityId) (mc : Loc) (s0 : State) (fuel : Nat)
    (hstart : behaviorDrawWay im c0 wayId index mode c0.graph endId mc = .ok s0) :
    ∃ s1, cancel fuel s0 = some s1 ∧ s1.ctx.history = c0.history := by
  obtain ⟨w, -, rfl⟩ := behaviorDrawWay_ok hstart
  have hg : ∀ (n : Nat) (b : Bool) (m : Mode),
      (Context.mk { base := c0.history.base, rest := c0.history.rest } n b m).graph
        = c0.graph := by
    intro n b m
    rfl
  cases fuel <;>
    simp [cancel, Context.pop, History.pop, popToStart, hg, enter]

theorem start_cancel_history_witness :
    ∃ s1, cancel 0 lineSession = some s1 ∧ s1.ctx.history = lineContext.history :=
  start_cancel_history gridImports lineContext 10 2 (.draw 0) 99 (5, 5) lineSession 0
    (by decide)

/-- C4: when the surface carries the class `nope`, each of `drawWay.add`,
`drawWay.addWay` and `drawWay.addNode` returns at once: the whole state, so the
history, `_tempEdits` and the current mode, is unchanged and nothing is thrown. -/
theorem blocked_commit_is_noop (im : Imports) (s : State) (loc : Loc) (d : Option Datum)
    (edge : EntityId × EntityId) (node : Entity) (hnope : s.ctx.nope = true) :
    add im s loc d = { state := s, thrown := none } ∧
      addWay im s loc edge = { state := s, thrown := none } ∧
      addNode im s node = { state := s, thrown := none } := by
  simp [add, addWay, addNode, hnope]

theorem blocked_commit_is_noop_witness :
    add gridImports { lineSession with ctx := { lineSession.ctx with nope := true } } (3, 3) none
        = { state := { lineSession with ctx := { lineSession.ctx with nope := true } },
            thrown := none } ∧
      addWay gridImports { lineSession with ctx := { lineSession.ctx with nope := true } }
        (3, 3) (1, 2)
        = { state := { lineSession with ctx := { lineSession.ctx with nope := true } },
            thrown := none } ∧
      addNode gridImports { lineSession with ctx := { lineSession.ctx with nope := true } }
        (.node ⟨2, (4, 0)⟩)
        = { state := { lineSession with ctx := { lineSession.ctx with nope := true } },
            thrown := none } :=
  blocked_commit_is_noop gridImports
    { lineSession with ctx := { lineSession.ctx with nope := true } } (3, 3) none (1, 2)
    (.node ⟨2, (4, 0)⟩) rfl

/-- C10: when the nodes of every parent way of `entity` are in `graph`,
`isInvalidGeometry(entity, graph, skipLast)` returns, and it returns true if and
only if some parent way is closed and its node sequence, without the final node
when `skipLast` is true, is flagged by `geoHasSelfIntersections` for `entity.id`;
it returns false when every parent way is open. -/
theorem isInvalidGeometry_iff (im : Imports) (entity : Entity) (graph : Graph)
    (skipLast : Bool)
    (hnodes : ∀ p ∈ graph.parentWays entity, ∃ nodes, graph.mapEntity p.nodes = .ok nodes) :
    ∃ b, isInvalidGeometry im entity graph skipLast = .ok b ∧
      (b = true ↔ ∃ p ∈ graph.parentWays entity, p.isClosed = true ∧ ∃ nodes,
        graph.mapEntity p.nodes = .ok nodes ∧
        im.geoHasSelfIntersections (if skipLast then nodes.dropLast else nodes) entity.id
          = true) ∧
      ((∀ p ∈ graph.parentWays entity, p.isClosed = false) → b = false) := by
  obtain ⟨b, hb, hiff⟩ :=
    isInvalidGeometryLoop_spec im entity graph skipLast (graph.parentWays entity) hnodes
  refine ⟨b, hb, hiff, fun hopen => ?_⟩
  cases hbt : b with
  | false => rfl
  | true =>
    obtain ⟨p, hp, hc, -⟩ := hiff.mp hbt
    rw [hopen p hp] at hc
    exact absurd hc (by decide)

theorem isInvalidGeometry_iff_witness :
    ∃ b, isInvalidGeometry gridImports (.node ⟨99, (4, 0)⟩)
        { oid := 3
          entities := [.node ⟨1, (0, 0)⟩, .node ⟨2, (2, 2)⟩, .node ⟨3, (2, -2)⟩,
            .way ⟨10, [1, 2, 3, 99, 1]⟩, .node ⟨99, (4, 0)⟩] } false = .ok b ∧
      (b = true ↔ ∃ p ∈ Graph.parentWays
          { oid := 3
            entities := [.node ⟨1, (0, 0)⟩, .node ⟨2, (2, 2)⟩, .node ⟨3, (2, -2)⟩,
              .way ⟨10, [1, 2, 3, 99, 1]⟩, .node ⟨99, (4, 0)⟩] } (.node ⟨99, (4, 0)⟩),
        p.isClosed = true ∧ ∃ nodes,
        Graph.mapEntity
          { oid := 3
            entities := [.node ⟨1, (0, 0)⟩, .node ⟨2, (2, 2)⟩, .node ⟨3, (2, -2)⟩,
              .way ⟨10, [1, 2, 3, 99, 1]⟩, .node ⟨99, (4, 0)⟩] } p.nodes = .ok nodes ∧
        gridImports.geoHasSelfIntersections (if false then nodes.dropLast else nodes)
          (Entity.node ⟨99, (4, 0)⟩).id = true) ∧
      ((∀ p ∈ Graph.parentWays
          { oid := 3
            entities := [.node ⟨1, (0, 0)⟩, .node ⟨2, (2, 2)⟩, .node ⟨3, (2, -2)⟩,
              .way ⟨10, [1, 2, 3, 99, 1]⟩, .node ⟨99, (4, 0)⟩] } (.node ⟨99, (4, 0)⟩),
        p.isClosed = false) → b = false) :=
  isInvalidGeometry_iff gridImports (.node ⟨99, (4, 0)⟩)
    { oid := 3
      entities := [.node ⟨1, (0, 0)⟩, .node ⟨2, (2, 2)⟩, .node ⟨3, (2, -2)⟩,
        .way ⟨10, [1, 2, 3, 99, 1]⟩, .node ⟨99, (4, 0)⟩] } false
    (by
      intro p hp
      have hp1 : p = ⟨10, [1, 2, 3, 99, 1]⟩ := by
        simpa [Graph.parentWays, Entity.id] using hp
      subst hp1
      exact ⟨_, rfl⟩)

/-- In a session whose graph holds the nodes of all its ways and the provisional
node, every move of a sequence of moves with edge candidates that name entities
of the graph completes, with the flag set to the result of the check. -/
theorem moves_complete (im : Imports) (s : State) (evs : List MoveEvent) (ev : MoveEvent)
    (hgraph : s.ctx.graph.NodesPresent)
    (hend : ∃ n, s.ctx.graph.hasEntity s.end_.id = some (.node n))
    (hevs : ∀ e ∈ evs ++ [ev], e.TargetsPresent s.ctx.graph) :
    ∃ s1, move im (run im s (evs.map Event.move)) ev = { state := s1, thrown := none } ∧
      isInvalidGeometry im s1.end_ s1.ctx.graph true = .ok s1.ctx.nope ∧
      s1.ctx.graph.entity s1.end_.id = .ok s1.end_ := by
  have hinv : MoveInv s.ctx.graph (run im s (evs.map Event.move)) :=
    run_moves_inv im s.ctx.graph evs s ⟨hgraph, hend, fun _ => rfl⟩
      (fun e he => hevs e (by simp [he]))
  obtain ⟨s1, hs1, -, hflag, hent, -⟩ :=
    move_step im s.ctx.graph _ ev hinv (hevs ev (by simp))
  exact ⟨s1, hs1, hflag, hent⟩

theorem Context.replace_nope {c c1 : Context} {actions : List Action}
    (h : c.replace actions = .ok c1) : c1.nope = c.nope := by
  unfold Context.replace at h
  split at h
  · simp at h
  · simp only [Except.ok.injEq] at h
    subst h
    rfl

theorem move_completes_end {im : Imports} {s s1 : State} {ev : MoveEvent}
    (h : move im s ev = { state := s1, thrown := none }) :
    s1.ctx.graph.entity s1.end_.id = .ok s1.end_ := by
  unfold move at h
  split at h
  · simp at h
  · split at h
    · simp at h
    · rename_i c hc
      split at h
      · simp at h
      · rename_i e he
        obtain ⟨b, hb⟩ := checkGeometry_state im { s with ctx := c, end_ := e } true
        have hs1 : s1 = { s with ctx := { c with nope := b }, end_ := e } := by
          rw [← hb, h]
        have hid : e.id = s.end_.id := Graph.hasEntity_id (Graph.entity_eq_ok.mp he)
        subst hs1
        show c.graph.entity e.id = .ok e
        rw [hid]
        exact he

theorem move_throw_nope (im : Imports) (s : State) (ev : MoveEvent) (e : Err)
    (h : (move im s ev).thrown = some e) : (move im s ev).state.ctx.nope = s.ctx.nope := by
  unfold move at h ⊢
  cases hloc : moveLoc im s ev with
  | error e1 => rfl
  | ok loc =>
    simp only [hloc] at h ⊢
    cases hc : s.ctx.replace [actionMoveNode s.end_.id loc] with
    | error e1 => rfl
    | ok c =>
      simp only [hc] at h ⊢
      have hcn := Context.replace_nope hc
      cases he2 : c.entity s.end_.id with
      | error e1 => exact hcn
      | ok e2 =>
        simp only [he2] at h ⊢
        unfold checkGeometry at h ⊢
        cases hb : isInvalidGeometry im e2 c.graph true with
        | error e1 =>
          have hb1 : isInvalidGeometry im
              ({ s with ctx := c, end_ := e2 } : State).end_
              ({ s with ctx := c, end_ := e2 } : State).ctx.graph true = .error e1 := hb
          simp only [hb1]
          exact hcn
        | ok b =>
          have hb1 : isInvalidGeometry im
              ({ s with ctx := c, end_ := e2 } : State).end_
              ({ s with ctx := c, end_ := e2 } : State).ctx.graph true = .ok b := hb
          simp only [hb1] at h
          cases h

/-- C5, as stated, fails: the session started with the pointer at `(0, 2)` has
its flag clear; a move whose edge candidate names entity 7, which the store does
not hold, throws before the geometry is checked and leaves the flag clear, while
`isInvalidGeometry(end, graph, true)` is true. -/
theorem move_throw_leaves_flag_stale :
    behaviorDrawWay gridImports bowContext 10 3 (.draw 0) bowGraph 99 (0, 2)
        = .ok staleSession ∧
      move gridImports staleSession ⟨some ⟨some ⟨none, some [[7]], false⟩⟩, (0, 0), (0, 2)⟩
        = { state := staleSession, thrown := some (.entityNotFound 7) } ∧
      staleSession.ctx.nope = false ∧
      isInvalidGeometry gridImports staleSession.end_ staleSession.ctx.graph true = .ok true :=
  ⟨by decide, by decide, by decide, rfl⟩

/-- C5, amended: in every sequence of move events, after each move that
completes the blocking flag equals `isInvalidGeometry(end, graph, true)` on the
current graph, `end` being the node stored in that graph under its id; a move
that throws leaves the flag as it was. Every move of the sequence completes
when the graph holds the nodes of all its ways and the provisional node, and
the edge candidates of the moves name entities of the graph. -/
theorem move_sets_flag (im : Imports) (s : State) (evs : List MoveEvent) (ev : MoveEvent) :
    (∀ s1, move im (run im s (evs.map Event.move)) ev = { state := s1, thrown := none } →
        isInvalidGeometry im s1.end_ s1.ctx.graph true = .ok s1.ctx.nope ∧
        s1.ctx.graph.entity s1.end_.id = .ok s1.end_) ∧
      (∀ e, (move im (run im s (evs.map Event.move)) ev).thrown = some e →
        (move im (run im s (evs.map Event.move)) ev).state.ctx.nope
          = (run im s (evs.map Event.move)).ctx.nope) ∧
      (s.ctx.graph.NodesPresent →
        (∃ n, s.ctx.graph.hasEntity s.end_.id = some (.node n)) →
        (∀ e ∈ evs ++ [ev], e.TargetsPresent s.ctx.graph) →
        ∃ s1, move im (run im s (evs.map Event.move)) ev = { state := s1, thrown := none }) := by
  refine ⟨fun s1 h => ⟨move_completes h, move_completes_end h⟩,
    fun e h => move_throw_nope im _ ev e h, fun hgraph hend hevs => ?_⟩
  obtain ⟨s1, hs1, -⟩ := moves_complete im s evs ev hgraph hend hevs
  exact ⟨s1, hs1⟩

theorem move_sets_flag_witness :
    (isInvalidGeometry gridImports
          (move gridImports
            (run gridImports bowSession
              ([⟨some ⟨some ⟨none, some [[1, 2], [2, 3]], false⟩⟩, (1, 1), (3, -1)⟩].map
                Event.move))
            ⟨none, (0, 0), (0, 2)⟩).state.end_
          (move gridImports
            (run gridImports bowSession
              ([⟨some ⟨some ⟨none, some [[1, 2], [2, 3]], false⟩⟩, (1, 1), (3, -1)⟩].map
                Event.move))
            ⟨none, (0, 0), (0, 2)⟩).state.ctx.graph true
        = .ok (move gridImports
            (run gridImports bowSession
              ([⟨some ⟨some ⟨none, some [[1, 2], [2, 3]], false⟩⟩, (1, 1), (3, -1)⟩].map
                Event.move))
            ⟨none, (0, 0), (0, 2)⟩).state.ctx.nope) ∧
      (move gridImports
            (run gridImports bowSession
              ([⟨some ⟨some ⟨none, some [[1, 2], [2, 3]], false⟩⟩, (1, 1), (3, -1)⟩].map
                Event.move))
            ⟨none, (0, 0), (0, 2)⟩).state.ctx.nope = true ∧
      (move gridImports (run gridImports staleSession ([].map Event.move))
          ⟨some ⟨some ⟨none, some [[7]], false⟩⟩, (0, 0), (0, 2)⟩).state.ctx.nope
        = (run gridImports staleSession ([].map Event.move)).ctx.nope ∧
      ∃ s1, move gridImports
        (run gridImports bowSession
          ([⟨some ⟨some ⟨none, some [[1, 2], [2, 3]], false⟩⟩, (1, 1), (3, -1)⟩].map Event.move))
        ⟨none, (0, 0), (0, 2)⟩ = { state := s1, thrown := none } :=
  ⟨((move_sets_flag gridImports bowSession
      [⟨some ⟨some ⟨none, some [[1, 2], [2, 3]], false⟩⟩, (1, 1), (3, -1)⟩]
      ⟨none, (0, 0), (0, 2)⟩).1 _ (by decide)).1,
    by decide,
    (move_sets_flag gridImports staleSession []
      ⟨some ⟨some ⟨none, some [[7]], false⟩⟩, (0, 0), (0, 2)⟩).2.1 (.entityNotFound 7)
      (by decide),
    (move_sets_flag gridImports bowSession
      [⟨some ⟨some ⟨none, some [[1, 2], [2, 3]], false⟩⟩, (1, 1), (3, -1)⟩]
      ⟨none, (0, 0), (0, 2)⟩).2.2
      (by
        intro w hw id hid
        have hw1 : w = ⟨10, [1, 2, 3, 99, 1]⟩ := by
          simpa [bowSession, Context.graph, History.graph, History.current] using hw
        subst hw1
        simp only [List.mem_cons, List.mem_singleton, List.not_mem_nil, or_false] at hid
        rcases hid with rfl | rfl | rfl | rfl | rfl <;> decide)
      ⟨⟨99, (3, -3)⟩, by decide⟩
      (by
        intro e he hloc groups hgroups group hgroup id hid
        simp only [List.cons_append, List.nil_append, List.mem_cons, List.mem_singleton,
          List.not_mem_nil, or_false] at he
        rcases he with rfl | rfl
        · simp only [nodeGroupsOf, Option.some.injEq] at hgroups
          subst hgroups
          simp only [List.mem_cons, List.mem_singleton, List.not_mem_nil, or_false] at hgroup
          rcases hgroup with rfl | rfl <;>
            simp only [List.mem_cons, List.mem_singleton, List.not_mem_nil, or_false] at hid <;>
            rcases hid with rfl | rfl <;> decide
        · simp [nodeGroupsOf] at hgroups)⟩

/-- C7: when the datum of a move carries a point candidate with a location, then
whatever edge candidates it also carries and whatever `geoChooseEdge` would say
of them, the provisional node is moved to that location: `end` and the node
stored under its id in the current graph have the point candidate's `loc`. -/
theorem move_snaps_to_point (im : Imports) (s : State) (ev : MoveEvent) (p : Loc) (n : Node)
    (hpoint : nodeLocOf ev.datum = some p)
    (hend : s.ctx.graph.hasEntity s.end_.id = some (.node n)) :
    moveLoc im s ev = .ok p ∧
      (move im s ev).state.end_ = .node { n with loc := p } ∧
      (move im s ev).state.ctx.graph.hasEntity s.end_.id = some (.node { n with loc := p }) := by
  have hloc : moveLoc im s ev = .ok p := by
    unfold moveLoc
    rw [hpoint]
  exact ⟨hloc, move_writes_loc im s ev p n hloc hend⟩

theorem move_snaps_to_point_witness :
    moveLoc gridImports lineSession
        ⟨some ⟨some ⟨some ⟨some (9, 9)⟩, some [[1, 2]], false⟩⟩, (1, 1), (7, 7)⟩ = .ok (9, 9) ∧
      (move gridImports lineSession
        ⟨some ⟨some ⟨some ⟨some (9, 9)⟩, some [[1, 2]], false⟩⟩, (1, 1), (7, 7)⟩).state.end_
        = .node { (⟨99, (5, 5)⟩ : Node) with loc := (9, 9) } ∧
      (move gridImports lineSession
        ⟨some ⟨some ⟨some ⟨some (9, 9)⟩, some [[1, 2]], false⟩⟩, (1, 1), (7, 7)⟩).state.ctx.graph.hasEntity
          lineSession.end_.id = some (.node { (⟨99, (5, 5)⟩ : Node) with loc := (9, 9) }) :=
  move_snaps_to_point gridImports lineSession
    ⟨some ⟨some ⟨some ⟨some (9, 9)⟩, some [[1, 2]], false⟩⟩, (1, 1), (7, 7)⟩ (9, 9) ⟨99, (5, 5)⟩
    (by decide) (by decide)

/-- The location `move` resolves for an event without a point location, through
the values `move` reads off the datum. -/
theorem moveLoc_nearest_of_groups (im : Imports) (s : State) (ev : MoveEvent) (n : Node)
    (hpoint : nodeLocOf ev.datum = none)
    (hend : s.ctx.graph.hasEntity s.end_.id = some (.node n))
    (hgroups : ∀ group ∈ (nodeGroupsOf ev.datum).getD [], ∀ id ∈ group,
      (s.ctx.graph.hasEntity id).isSome = true) :
    ∃ loc, moveLoc im s ev = .ok loc ∧
      (move im s ev).state.end_ = .node { n with loc := loc } ∧
      (((∀ c ∈ edgeChoices im s.ctx.graph ev.mouse s.end_.id ((nodeGroupsOf ev.datum).getD []),
            c.distance = .inf) ∧ loc = ev.mouseCoordinates) ∨
        ∃ pre c post,
          edgeChoices im s.ctx.graph ev.mouse s.end_.id ((nodeGroupsOf ev.datum).getD [])
            = pre ++ c :: post ∧
          loc = c.loc ∧ c.distance ≠ .inf ∧ (∀ x ∈ pre, c.distance.lt x.distance = true) ∧
          (∀ x ∈ post, x.distance.lt c.distance = false)) := by
  have key : ∃ loc, moveLoc im s ev = .ok loc ∧
      loc = ((edgeChoices im s.ctx.graph ev.mouse s.end_.id
        ((nodeGroupsOf ev.datum).getD [])).foldl pickChoice (.inf, ev.mouseCoordinates)).2 := by
    unfold moveLoc
    rw [hpoint]
    cases hg : nodeGroupsOf ev.datum with
    | none => exact ⟨_, rfl, rfl⟩
    | some groups =>
      rw [hg] at hgroups
      simp only [Option.getD_some] at hgroups ⊢
      rw [moveLoop_eq_foldl im s.ctx.graph ev.mouse s.end_.id groups hgroups]
      exact ⟨_, rfl, rfl⟩
  obtain ⟨loc, hloc, hval⟩ := key
  refine ⟨loc, hloc, (move_writes_loc im s ev loc n hloc hend).1, ?_⟩
  rcases foldl_pickChoice_spec ev.mouseCoordinates
      (edgeChoices im s.ctx.graph ev.mouse s.end_.id ((nodeGroupsOf ev.datum).getD [])) with
    ⟨hall, hr⟩ | ⟨pre, c, post, hcs, hr, hrest⟩
  · exact Or.inl ⟨hall, by rw [hval, hr]⟩
  · exact Or.inr ⟨pre, c, post, hcs, by rw [hval, hr], hrest⟩

/-- C8: for a datum whose point candidate is absent or has no `loc` and whose
`nodes` are the edge candidates `groups` (ids of entities of the graph), `move`
moves the provisional node to the `loc` of the first choice of least finite
distance among the choices `geoChooseEdge` makes for `groups`, in order, with
the id of `end` excluded; it moves it to the raw `mouseCoordinates` when there
are no edge candidates, when no choice has a finite distance, and when the
datum or its properties are absent. -/
theorem move_snaps_to_nearest_edge (im : Imports) (s : State) (entity : Option TargetEntity)
    (nodes : Option (List (List EntityId))) (nope : Bool) (mouse mc : Loc) (n : Node)
    (hpoint : entity = none ∨ entity = some { loc := none })
    (hend : s.ctx.graph.hasEntity s.end_.id = some (.node n))
    (hgroups : ∀ group ∈ nodes.getD [], ∀ id ∈ group,
      (s.ctx.graph.hasEntity id).isSome = true) :
    (∃ loc,
      moveLoc im s ⟨some ⟨some ⟨entity, nodes, nope⟩⟩, mouse, mc⟩ = .ok loc ∧
      (move im s ⟨some ⟨some ⟨entity, nodes, nope⟩⟩, mouse, mc⟩).state.end_
        = .node { n with loc := loc } ∧
      (((∀ c ∈ edgeChoices im s.ctx.graph mouse s.end_.id (nodes.getD []),
            c.distance = .inf) ∧ loc = mc) ∨
        ∃ pre c post,
          edgeChoices im s.ctx.graph mouse s.end_.id (nodes.getD []) = pre ++ c :: post ∧
          loc = c.loc ∧ c.distance ≠ .inf ∧ (∀ x ∈ pre, c.distance.lt x.distance = true) ∧
          (∀ x ∈ post, x.distance.lt c.distance = false))) ∧
      moveLoc im s ⟨none, mouse, mc⟩ = .ok mc ∧
      moveLoc im s ⟨some ⟨none⟩, mouse, mc⟩ = .ok mc := by
  refine ⟨?_, rfl, rfl⟩
  have hloc : nodeLocOf (some ⟨some ⟨entity, nodes, nope⟩⟩ : Option Datum) = none := by
    rcases hpoint with rfl | rfl <;> rfl
  exact moveLoc_nearest_of_groups im s ⟨some ⟨some ⟨entity, nodes, nope⟩⟩, mouse, mc⟩ n hloc hend
    hgroups

theorem move_snaps_to_nearest_edge_witness :
    moveLoc gridImports lineSession edgeMove = .ok (4, 0) ∧
      (move gridImports lineSession edgeMove).state.end_ = .node ⟨99, (4, 0)⟩ := by
  obtain ⟨⟨loc, hloc, hend, hchoice⟩, -, -⟩ :=
    move_snaps_to_nearest_edge gridImports lineSession none (some [[1], [2]]) false (3, 2) (7, 7)
      ⟨99, (5, 5)⟩ (Or.inl rfl) (by decide) (by decide)
  have hchoices : edgeChoices gridImports lineSession.ctx.graph (3, 2) lineSession.end_.id
      ((some [[1], [2]] : Option (List (List EntityId))).getD [])
      = [⟨0, .fin 5, (0, 0)⟩, ⟨0, .fin 3, (4, 0)⟩] := by decide
  rw [hchoices] at hchoice
  have hval : loc = (4, 0) := by
    rcases hchoice with ⟨hall, -⟩ | ⟨pre, c, post, hcs, hc, -, -, hpost⟩
    · exact absurd (hall ⟨0, .fin 5, (0, 0)⟩ (by simp)) (by decide)
    · rcases pre with _ | ⟨a, _ | ⟨b, pre⟩⟩
      · simp only [List.nil_append, List.cons.injEq] at hcs
        obtain ⟨rfl, rfl⟩ := hcs
        exact absurd (hpost ⟨0, .fin 3, (4, 0)⟩ (by simp)) (by decide)
      · simp only [List.cons_append, List.nil_append, List.cons.injEq] at hcs
        obtain ⟨-, rfl, -⟩ := hcs
        exact hc
      · simp at hcs
  subst hval
  exact ⟨hloc, hend⟩

/-- C9, as stated, fails: an edge candidate that names entity 7, which the
store does not hold, makes `move` throw and leave the session as it was, while the
same move without the candidate completes. -/
theorem move_dangling_target_throws :
    move gridImports lineSession danglingMove
        = { state := lineSession, thrown := some (.entityNotFound 7) } ∧
      (move gridImports lineSession
        { danglingMove with datum := some ⟨some ⟨none, some [[1, 2]], false⟩⟩ }).thrown = none := by
  decide

/-- C9, amended: for a datum whose point candidate is absent or lacks `loc`,
`move` does what it does for the datum with the edge member lists only; when the
edge member list is absent too the location resolved is the raw
`mouseCoordinates`; when a member list names an id the store does not hold,
`move` throws `entityNotFound` before it changes anything. -/
theorem move_malformed_target (im : Imports) (s : State) (ev : MoveEvent)
    (hpoint : nodeLocOf ev.datum = none) :
    move im s ev
        = move im s { ev with datum := some ⟨some ⟨none, nodeGroupsOf ev.datum, false⟩⟩ } ∧
      (nodeGroupsOf ev.datum = none → moveLoc im s ev = .ok ev.mouseCoordinates) ∧
      (∀ groups, nodeGroupsOf ev.datum = some groups →
        (∃ group ∈ groups, ∃ id ∈ group, s.ctx.graph.hasEntity id = none) →
        ∃ id, move im s ev = { state := s, thrown := some (.entityNotFound id) }) := by
  have hloc : ∀ ev1 : MoveEvent, nodeLocOf ev1.datum = none →
      nodeGroupsOf ev1.datum = nodeGroupsOf ev.datum → ev1.mouse = ev.mouse →
      ev1.mouseCoordinates = ev.mouseCoordinates → moveLoc im s ev1 = moveLoc im s ev := by
    intro ev1 h1 h2 h3 h4
    unfold moveLoc
    rw [h1, hpoint, h2, h3, h4]
  refine ⟨?_, ?_, ?_⟩
  · unfold move
    rw [hloc { ev with datum := some ⟨some ⟨none, nodeGroupsOf ev.datum, false⟩⟩ }
      rfl rfl rfl rfl]
  · intro hnone
    unfold moveLoc
    rw [hpoint, hnone]
  · intro groups hgroups hmissing
    obtain ⟨id, hid⟩ := moveLoop_error im s.ctx.graph ev.mouse s.end_.id groups hmissing
      .inf ev.mouseCoordinates
    refine ⟨id, ?_⟩
    have : moveLoc im s ev = .error (.entityNotFound id) := by
      unfold moveLoc
      rw [hpoint, hgroups]
      simp only [hid]
    unfold move
    simp only [this]

theorem move_malformed_target_witness :
    move gridImports lineSession
        { edgeMove with datum := some ⟨some ⟨some ⟨none⟩, some [[1], [2]], true⟩⟩ }
      = move gridImports lineSession
        { edgeMove with datum := some ⟨some ⟨none, some [[1], [2]], false⟩⟩ } :=
  (move_malformed_target gridImports lineSession
    { edgeMove with datum := some ⟨some ⟨some ⟨none⟩, some [[1], [2]], true⟩⟩ } (by decide)).1

/-- C6, as stated, fails after a move: the provisional node of the session
`bowSession` moved to `(4, 0)` makes the closing segment of the closed target
way cross another segment, the move completes, and the blocking flag is clear;
an `add` whose datum is marked `nope` then returns at its guard and leaves the
state as it is. -/
theorem move_leaves_invalid_way_unflagged :
    behaviorDrawWay gridImports bowContext 10 3 (.draw 0) bowGraph 99 (3, -3) = .ok bowSession ∧
      ∃ s1 w nodes, move gridImports bowSession ⟨none, (0, 0), (4, 0)⟩
          = { state := s1, thrown := none } ∧
        s1.ctx.graph.hasEntity s1.wayId = some (.way w) ∧ w.isClosed = true ∧
        s1.ctx.graph.mapEntity w.nodes = .ok nodes ∧
        gridImports.geoHasSelfIntersections nodes s1.end_.id = true ∧
        s1.ctx.nope = false ∧
        add gridImports s1 (4, 0) (some ⟨some ⟨none, none, true⟩⟩)
          = { state := s1, thrown := none } :=
  ⟨by decide,
    (move gridImports bowSession ⟨none, (0, 0), (4, 0)⟩).state, ⟨10, [1, 2, 3, 99, 1]⟩,
    [.node ⟨1, (0, 0)⟩, .node ⟨2, (2, 2)⟩, .node ⟨3, (2, -2)⟩, .node ⟨99, (4, 0)⟩,
      .node ⟨1, (0, 0)⟩],
    by decide, by decide, by decide, rfl, by decide, by decide, by decide⟩

/-- C6, amended: in a session started by `behaviorDrawWay` and run through any
move and add events, after a further move completes the flag is set if the
target way is closed and its node sequence without the final node is flagged by
`geoHasSelfIntersections` for the provisional node; after an `add` whose datum is
not marked `nope`, or an `addWay` (with a midpoint action that keeps the members
of ways), completes, the flag is set if the target way is closed and its whole
node sequence is flagged. `skipLast` is true for the move, false for a commit. -/
theorem flag_set_when_invalid (im : Imports) (c0 : Context) (wayId : EntityId) (index : Nat)
    (mode : Mode) (startGraph : Graph) (endId : EntityId) (mc : Loc) (s0 : State)
    (evs : List Event) (s1 : State) (skipLast : Bool) (w : Way) (nodes : List Entity)
    (hstart : behaviorDrawWay im c0 wayId index mode startGraph endId mc = .ok s0)
    (hfresh : endId ≠ wayId)
    (htrans :
      (skipLast = true ∧ ∃ ev, move im (run im s0 evs) ev = { state := s1, thrown := none }) ∨
      (skipLast = false ∧
        ((∃ loc d, datumNope d = false ∧
            add im (run im s0 evs) loc d = { state := s1, thrown := none }) ∨
          (im.MidpointKeepsNodes ∧
            ∃ loc edge, addWay im (run im s0 evs) loc edge = { state := s1, thrown := none }))))
    (hway : s1.ctx.graph.hasEntity wayId = some (.way w)) (hclosed : w.isClosed = true)
    (hnodes : s1.ctx.graph.mapEntity w.nodes = .ok nodes)
    (hgeo : im.geoHasSelfIntersections (if skipLast then nodes.dropLast else nodes) endId
      = true) :
    s1.ctx.nope = true := by
  obtain ⟨w0, hinv0, hwid0⟩ := behaviorDrawWay_targetHoldsEnd hstart hfresh
  have hinv := run_targetHoldsEnd im w0 endId evs s0 hinv0
  have hsame : (run im s0 evs).wayId = wayId := by
    obtain ⟨-, h2, -⟩ := hinv
    obtain ⟨-, h20, -⟩ := hinv0
    rw [← h2, h20, hwid0]
  -- the flag is the result of the check, on a state whose target way holds the node
  have key : ∀ (k : Bool), isInvalidGeometry im s1.end_ s1.ctx.graph k = .ok s1.ctx.nope →
      s1.end_.id = endId → endId ∈ w.nodes →
      im.geoHasSelfIntersections (if k then nodes.dropLast else nodes) endId = true →
      s1.ctx.nope = true := by
    intro k hcheck hid hmem hg
    exact isInvalidGeometryLoop_true im s1.end_ s1.ctx.graph k _ _ w nodes hcheck
      (Graph.mem_parentWays.mpr ⟨Graph.hasEntity_mem hway, by rw [hid]; exact hmem⟩)
      hclosed hnodes (by rw [hid]; exact hg)
  have hheld : ∀ s2 : State, TargetHoldsEnd w0 endId s2 → s2.wayId = wayId →
      s2.ctx.graph = s1.ctx.graph → endId ∈ w.nodes := by
    intro s2 h2 hw2 hg2
    obtain ⟨-, -, -, -, h5⟩ := h2
    rw [hw2, hg2, hway] at h5
    simp only [Option.some.injEq, Entity.way.injEq] at h5
    rw [h5]
    exact (Way.mem_addNode w0 endId _).1
  rcases htrans with ⟨rfl, ev, hmove⟩ | ⟨rfl, hcommit⟩
  · have h1 := move_targetHoldsEnd im w0 endId (run im s0 evs) ev hinv
    rw [hmove] at h1
    have hw1 : s1.wayId = wayId := by
      obtain ⟨-, h2, -⟩ := h1
      obtain ⟨-, h20, -⟩ := hinv
      rw [← h2, h20, hsame]
    exact key true (move_completes hmove) h1.2.2.1 (hheld s1 h1 hw1 rfl) hgeo
  · rcases hcommit with ⟨loc, d, hd, hadd⟩ | ⟨hmid, loc, edge, haddWay⟩
    · by_cases hnope : (run im s0 evs).ctx.nope = true
      · rw [add_eq_commit, if_pos (by simp [hnope])] at hadd
        simp only [Outcome.mk.injEq, and_true] at hadd
        rw [← hadd]
        exact hnope
      · have h1 := add_targetHoldsEnd im w0 endId (run im s0 evs) loc d hinv
        rw [hadd] at h1
        have hw1 : s1.wayId = wayId := by
          obtain ⟨-, h2, -⟩ := h1
          obtain ⟨-, h20, -⟩ := hinv
          rw [← h2, h20, hsame]
        rw [add_eq_commit, if_neg (by simp [hd, hnope])] at hadd
        exact key false (commit_completes hadd) h1.2.2.1 (hheld s1 h1 hw1 rfl) hgeo
    · by_cases hnope : (run im s0 evs).ctx.nope = true
      · rw [addWay_eq_commit, if_pos hnope] at haddWay
        simp only [Outcome.mk.injEq, and_true] at haddWay
        rw [← haddWay]
        exact hnope
      · rw [addWay_eq_commit, if_neg hnope] at haddWay
        obtain ⟨n1, hrun, hend, -⟩ := commit_inv haddWay
        obtain ⟨horig, hwid, hendid, -, -⟩ := hinv
        have hmem : endId ∈ w.nodes := by
          simp only [runActions, _actionAddDrawNode, horig] at hrun
          cases hm : im.actionAddMidpoint loc edge (run im s0 evs).end_
              ((((run im s0 evs).ctx.pop (run im s0 evs)._tempEdits).graph.replace
                (run im s0 evs).end_ (run im s0 evs).ctx.nextOid).replace
                (.way (w0.addNode (run im s0 evs).end_.id (run im s0 evs).index))
                ((run im s0 evs).ctx.nextOid + 1))
              ((run im s0 evs).ctx.nextOid + 2) with
          | error e => simp [hm] at hrun
          | ok r =>
            obtain ⟨g1, n2⟩ := r
            simp only [hm, Except.ok.injEq, Prod.mk.injEq] at hrun
            obtain ⟨hg1, -⟩ := hrun
            subst hg1
            refine hmid loc edge _ _ _ _ _ hm wayId
              (w0.addNode (run im s0 evs).end_.id (run im s0 evs).index) w ?_ hway endId ?_
            · rw [Graph.hasEntity_replace]
              exact if_pos (hwid.trans hsame)
            · rw [hendid]
              exact (Way.mem_addNode w0 endId _).1
        exact key false (commit_completes haddWay) (by rw [hend]; exact hendid) hmem hgeo

theorem flag_set_when_invalid_witness :
    (move gridImports (run gridImports bowSession []) ⟨none, (0, 0), (0, 2)⟩).state.ctx.nope
        = true ∧
      (add gridImports (run gridImports bowSession [.move ⟨none, (0, 0), (4, 0)⟩])
        (4, 0) none).state.ctx.nope = true ∧
      (addWay gridImports (run gridImports midSession []) (4, 0) (4, 5)).state.ctx.nope = true :=
  ⟨flag_set_when_invalid gridImports bowContext 10 3 (.draw 0) bowGraph 99 (3, -3) bowSession []
      (move gridImports (run gridImports bowSession []) ⟨none, (0, 0), (0, 2)⟩).state true
      ⟨10, [1, 2, 3, 99, 1]⟩
      [.node ⟨1, (0, 0)⟩, .node ⟨2, (2, 2)⟩, .node ⟨3, (2, -2)⟩, .node ⟨99, (0, 2)⟩,
        .node ⟨1, (0, 0)⟩]
      (by decide) (by decide) (Or.inl ⟨rfl, ⟨none, (0, 0), (0, 2)⟩, by decide⟩)
      (by decide) (by decide) rfl (by decide),
    flag_set_when_invalid gridImports bowContext 10 3 (.draw 0) bowGraph 99 (3, -3) bowSession
      [.move ⟨none, (0, 0), (4, 0)⟩]
      (add gridImports (run gridImports bowSession [.move ⟨none, (0, 0), (4, 0)⟩])
        (4, 0) none).state false
      ⟨10, [1, 2, 3, 99, 1]⟩
      [.node ⟨1, (0, 0)⟩, .node ⟨2, (2, 2)⟩, .node ⟨3, (2, -2)⟩, .node ⟨99, (4, 0)⟩,
        .node ⟨1, (0, 0)⟩]
      (by decide) (by decide) (Or.inr ⟨rfl, Or.inl ⟨(4, 0), none, rfl, by decide⟩⟩)
      (by decide) (by decide) rfl (by decide),
    flag_set_when_invalid gridImports midContext 10 3 (.draw 0) midGraph 99 (3, -3) midSession []
      (addWay gridImports (run gridImports midSession []) (4, 0) (4, 5)).state false
      ⟨10, [1, 2, 3, 99, 1]⟩
      [.node ⟨1, (0, 0)⟩, .node ⟨2, (2, 2)⟩, .node ⟨3, (2, -2)⟩, .node ⟨99, (4, 0)⟩,
        .node ⟨1, (0, 0)⟩]
      (by decide) (by decide)
      (Or.inr ⟨rfl, Or.inr ⟨gridImports_midpointKeepsNodes, (4, 0), (4, 5), by decide⟩⟩)
      (by decide) (by decide) rfl (by decide)⟩

/-- C11, as stated, fails: `blockedSession`, reached by `addWay` from a session on
way 10, has a target way that is degenerate once the temporary edits are popped,
yet `finish` finds the geometry invalid and returns without touching the store,
while `cancel` unwinds to `startGraph` and enters browse mode. -/
theorem finish_blocked_differs_from_cancel :
    behaviorDrawWay gridImports squareContext 10 0 (.draw 0) squareGraph 99 (1, 1)
        = .ok squareSession ∧
      addWay gridImports squareSession (2, 6) (2, 3)
        = { state := blockedSession, thrown := none } ∧
      (blockedSession.ctx.pop blockedSession._tempEdits).hasEntity blockedSession.wayId
        = some (.way ⟨10, [99]⟩) ∧
      gridImports.isDegenerate (.way ⟨10, [99]⟩) = true ∧
      finish gridImports 5 blockedSession = some { state := blockedSession, thrown := none } ∧
      (cancel 5 blockedSession).map (fun s => (s.ctx.graph, s.ctx.mode))
        = some (squareGraph, .browse) ∧
      blockedSession.ctx.graph ≠ squareGraph ∧ blockedSession.ctx.mode = .draw 0 := by
  decide

/-- C11, amended: when `finish` is not blocked (the check of the geometry returns
false) and the target way, once the temporary edits are popped, is missing or
degenerate, `finish` does exactly what `cancel` does from the same state; with
`startGraph` in the history and fuel for its entries both return, on
`startGraph`, with the counter at 0, in browse mode. -/
theorem finish_degenerate_eq_cancel (im : Imports) (fuel : Nat) (s : State)
    (hcheck : isInvalidGeometry im s.end_ s.ctx.graph false = .ok false)
    (hdeg : ∀ way, (s.ctx.pop s._tempEdits).hasEntity s.wayId = some way →
      im.isDegenerate way = true)
    (hbase : s.startGraph ∈ (s.ctx.pop s._tempEdits).history.entries.map Entry.graph)
    (hfuel : (s.ctx.pop s._tempEdits).history.rest.length ≤ fuel) :
    finish im fuel s = (cancel fuel s).map (fun s1 => { state := s1, thrown := none }) ∧
      ∃ s1, cancel fuel s = some s1 ∧ finish im fuel s = some { state := s1, thrown := none } ∧
        s1.ctx.graph = s.startGraph ∧ s1._tempEdits = 0 ∧ s1.ctx.mode = .browse := by
  have heq : finish im fuel s
      = (cancel fuel s).map (fun s1 => { state := s1, thrown := none }) := by
    rw [finish_unblocked im fuel s hcheck]
    cases hw : (s.ctx.pop s._tempEdits).hasEntity s.wayId with
    | none => rfl
    | some way => simp only [hdeg way hw, if_true]
  obtain ⟨k, -, -, hk⟩ := popToStart_topmost s.startGraph _ (s.ctx.pop s._tempEdits) rfl hbase
  have hc : ∃ s1, cancel fuel s = some s1 := by
    unfold cancel
    simp only [hk fuel hfuel]
    exact ⟨_, rfl⟩
  obtain ⟨s1, hs1⟩ := hc
  obtain ⟨h1, h2, h3, -⟩ := cancel_some hs1
  exact ⟨heq, s1, hs1, by rw [heq, hs1]; rfl, h1, h2, h3⟩

theorem finish_degenerate_eq_cancel_witness :
    finish gridImports 2 squareSession
        = (cancel 2 squareSession).map (fun s1 => { state := s1, thrown := none }) ∧
      ∃ s1, cancel 2 squareSession = some s1 ∧
        finish gridImports 2 squareSession = some { state := s1, thrown := none } ∧
        s1.ctx.graph = squareSession.startGraph ∧ s1._tempEdits = 0 ∧ s1.ctx.mode = .browse :=
  finish_degenerate_eq_cancel gridImports 2 squareSession rfl
    (by
      intro way hway
      have hw : way = .way ⟨10, []⟩ := by
        have h1 : (squareSession.ctx.pop squareSession._tempEdits).hasEntity squareSession.wayId
            = some (.way ⟨10, []⟩) := by decide
        rw [h1] at hway
        exact (Option.some.inj hway).symm
      subst hw
      decide)
    (by decide) (by decide)

/-- C12: when `finish` is not blocked and the target way in the graph under the
temporary edits exists and is not degenerate, `finish` pops `_tempEdits` entries
off the history and changes nothing else in it, sets the counter to 0, clears
the flag and enters select mode on `[wayId]` as a new feature; the way selected
is the way of the graph under the temporary edits, with the points it had. -/
theorem finish_accepts (im : Imports) (fuel : Nat) (s : State) (way : Entity)
    (hcheck : isInvalidGeometry im s.end_ s.ctx.graph false = .ok false)
    (hway : (s.ctx.pop s._tempEdits).hasEntity s.wayId = some way)
    (hdeg : im.isDegenerate way = false) :
    ∃ s1, finish im fuel s = some { state := s1, thrown := none } ∧
      s1 = { s with
              ctx := { history := s.ctx.history.pop s._tempEdits, nextOid := s.ctx.nextOid,
                       nope := false, mode := .select [s.wayId] true }
              _tempEdits := 0 } ∧
      s1.ctx.history.base = s.ctx.history.base ∧
      s1.ctx.history.rest = s.ctx.history.rest.drop s._tempEdits ∧
      s1._tempEdits = 0 ∧ s1.ctx.mode = .select [s.wayId] true ∧
      s1.ctx.hasEntity s.wayId = some way := by
  refine ⟨_, ?_, rfl, rfl, rfl, rfl, rfl, hway⟩
  rw [finish_unblocked im fuel s hcheck, hway]
  simp only [hdeg, Bool.false_eq_true, if_false]

theorem finish_accepts_witness :
    behaviorDrawWay gridImports (add gridImports lineSession (0, 0) none).state.ctx 10 3
        (.draw 0) lineGraph 100 (6, 6) = .ok continuedSession ∧
      continuedSession._tempEdits = 2 ∧ continuedSession.ctx.history.rest.length = 3 ∧
      continuedSession.ctx.hasEntity 10 = some (.way ⟨10, [1, 2, 99, 100]⟩) ∧
      ∃ s1, finish gridImports 0 continuedSession = some { state := s1, thrown := none } ∧
        s1 = { continuedSession with
                ctx := { history := continuedSession.ctx.history.pop continuedSession._tempEdits
                         nextOid := continuedSession.ctx.nextOid
                         nope := false
                         mode := .select [continuedSession.wayId] true }
                _tempEdits := 0 } ∧
        s1.ctx.history.base = continuedSession.ctx.history.base ∧
        s1.ctx.history.rest
          = continuedSession.ctx.history.rest.drop continuedSession._tempEdits ∧
        s1._tempEdits = 0 ∧ s1.ctx.mode = .select [continuedSession.wayId] true ∧
        s1.ctx.hasEntity continuedSession.wayId = some (.way ⟨10, [1, 2, 99]⟩) :=
  ⟨by decide, by decide, by decide, by decide,
    finish_accepts gridImports 0 continuedSession (.way ⟨10, [1, 2, 99]⟩) rfl (by decide)
      (by decide)⟩

/-- C15: the `undone` handler pops 2 entries off the history (`popEdits(2)`),
sets `_tempEdits` to 0 and enters the session's `mode` when the store holds the
target way after the pop, browse mode otherwise; nothing else changes. -/
theorem undone_pops_two (s : State) :
    (undone s).ctx.history.base = s.ctx.history.base ∧
      (undone s).ctx.history.rest = s.ctx.history.rest.drop 2 ∧
      (undone s)._tempEdits = 0 ∧
      (undone s).ctx.mode
        = (if ((s.ctx.pop 2).hasEntity s.wayId).isSome then s.mode else .browse) ∧
      undone s = { s with
                    ctx := { s.ctx.pop 2 with
                             mode := if ((s.ctx.pop 2).hasEntity s.wayId).isSome then s.mode
                                     else .browse }
                    _tempEdits := 0 } := by
  unfold undone
  simp only
  split <;> simp_all [enter, Context.pop, History.pop]

/-- C16: at the failing input, a session interrupted right after its start,
`drawWay.off` pops the two temporary entries and returns on `startGraph` with
`_tempEdits` still 2, where `cancel` from the same state leaves 0. -/
theorem off_keeps_tempEdits :
    (off 2 lineSession).map (fun s => (s._tempEdits, s.ctx.history)) =
        some (2, lineContext.history) ∧
      (cancel 2 lineSession).map (fun s => (s._tempEdits, s.ctx.history)) =
        some (0, lineContext.history) := by
  decide

/-- C18: in a session whose context is in a drawing mode, with a check of the
geometry that returns `b`, whatever the flag was before the call: when `b` is
true `finish` returns with history, counter and mode unchanged (and the flag
set); and whenever `finish` returns, history, counter and mode are all unchanged
if and only if `b` is true. -/
theorem finish_blocked_iff (im : Imports) (fuel : Nat) (s : State) (b : Bool) (tag : Nat)
    (hcheck : isInvalidGeometry im s.end_ s.ctx.graph false = .ok b)
    (hmode : s.ctx.mode = .draw tag) :
    (b = true → finish im fuel s =
        some { state := { s with ctx := { s.ctx with nope := true } }, thrown := none }) ∧
      ∀ o, finish im fuel s = some o →
        ((o.state.ctx.history = s.ctx.history ∧ o.state._tempEdits = s._tempEdits ∧
            o.state.ctx.mode = s.ctx.mode) ↔ b = true) := by
  cases b with
  | true =>
    refine ⟨fun _ => finish_blocked im fuel s hcheck, ?_⟩
    intro o ho
    rw [finish_blocked im fuel s hcheck] at ho
    simp only [Option.some.injEq] at ho
    subst ho
    simp
  | false =>
    refine ⟨fun h => absurd h (by decide), ?_⟩
    intro o ho
    have hne : o.state.ctx.mode ≠ s.ctx.mode := by
      rw [finish_unblocked im fuel s hcheck] at ho
      have hcancel : ∀ o1, (cancel fuel s).map (fun s3 => ({ state := s3, thrown := none } : Outcome))
          = some o1 → o1.state.ctx.mode ≠ s.ctx.mode := by
        intro o1 h1
        cases hc : cancel fuel s with
        | none => rw [hc] at h1; simp at h1
        | some s3 =>
          rw [hc] at h1
          simp only [Option.map_some', Option.some.injEq] at h1
          subst h1
          rw [(cancel_some hc).2.2.1, hmode]
          exact fun h => Mode.noConfusion h
      split at ho
      · exact hcancel o ho
      · split at ho
        · exact hcancel o ho
        · simp only [Option.some.injEq] at ho
          subst ho
          rw [hmode]
          simp
    constructor
    · rintro ⟨-, -, h3⟩
      exact absurd h3 hne
    · intro h
      exact absurd h (by decide)

theorem finish_blocked_iff_witness :
    finish gridImports 0 { blockedSession with ctx := { blockedSession.ctx with nope := false } }
      = some { state := blockedSession, thrown := none } :=
  (finish_blocked_iff gridImports 0
    { blockedSession with ctx := { blockedSession.ctx with nope := false } } true 0 rfl rfl).1 rfl

/-- C20: with `c` the context after the pop of `_tempEdits` entries, if
`startGraph` is the graph of an entry of the history of `c`, the loops of
`cancel` and `off` return once the fuel covers the entries of `c`, after popping
down to the topmost entry whose graph is `startGraph`; if `startGraph` is the
graph of no entry of `c`, they return for no amount of fuel (the pop at the
bottom of the history changes nothing). `off` runs its loop when `_tempEdits`
is not 0. -/
theorem unwind_loops_terminate (s : State) :
    (s.startGraph ∈ (s.ctx.pop s._tempEdits).history.entries.map Entry.graph →
        ∃ k, (s.ctx.pop (s._tempEdits + k)).graph = s.startGraph ∧
          (∀ j, j < k → (s.ctx.pop (s._tempEdits + j)).graph ≠ s.startGraph) ∧
          ∀ fuel, (s.ctx.pop s._tempEdits).history.rest.length ≤ fuel →
            cancel fuel s = some (enter
              { s with ctx := { s.ctx.pop (s._tempEdits + k) with nope := false }
                       _tempEdits := 0 } .browse) ∧
            (s._tempEdits ≠ 0 →
              off fuel s = some { s with ctx := s.ctx.pop (s._tempEdits + k) })) ∧
      (s.startGraph ∉ (s.ctx.pop s._tempEdits).history.entries.map Entry.graph →
        ∀ fuel, cancel fuel s = none ∧ (s._tempEdits ≠ 0 → off fuel s = none)) := by
  constructor
  · intro hmem
    obtain ⟨k, hkg, hmin, hk⟩ :=
      popToStart_topmost s.startGraph _ (s.ctx.pop s._tempEdits) rfl hmem
    refine ⟨k, by rw [← Context.pop_pop]; exact hkg, ?_, ?_⟩
    · intro j hj
      rw [← Context.pop_pop]
      exact hmin j hj
    · intro fuel hfuel
      constructor
      · unfold cancel
        simp only [hk fuel hfuel, Context.pop_pop]
      · intro ht
        unfold off
        rw [if_pos ht]
        simp only [hk fuel hfuel, Context.pop_pop]
  · intro hmem fuel
    have hnone := popToStart_none s.startGraph fuel (s.ctx.pop s._tempEdits) hmem
    constructor
    · unfold cancel
      simp only [hnone]
    · intro ht
      unfold off
      rw [if_pos ht]
      simp only [hnone]

theorem unwind_loops_terminate_witness :
    (∀ fuel, cancel fuel { lineSession with startGraph := bowGraph } = none ∧
        (({ lineSession with startGraph := bowGraph } : State)._tempEdits ≠ 0 →
          off fuel { lineSession with startGraph := bowGraph } = none)) ∧
      ∃ k, (lineSession.ctx.pop (lineSession._tempEdits + k)).graph = lineSession.startGraph ∧
        (∀ j, j < k →
          (lineSession.ctx.pop (lineSession._tempEdits + j)).graph ≠ lineSession.startGraph) ∧
        ∀ fuel, (lineSession.ctx.pop lineSession._tempEdits).history.rest.length ≤ fuel →
          cancel fuel lineSession = some (enter
            { lineSession with
                ctx := { lineSession.ctx.pop (lineSession._tempEdits + k) with nope := false }
                _tempEdits := 0 } .browse) ∧
          (lineSession._tempEdits ≠ 0 →
            off fuel lineSession
              = some { lineSession with ctx := lineSession.ctx.pop (lineSession._tempEdits + k) }) :=
  ⟨(unwind_loops_terminate { lineSession with startGraph := bowGraph }).2 (by decide),
    (unwind_loops_terminate lineSession).1 (by decide)⟩

/-- C17: a call of `behaviorDrawWay` that returns has pushed exactly two entries
and left the counter at 2. The first entry carries the session's annotation and
the graph object that was current before the call; the second holds the
provisional node, and its target way has the node list of the original way with
the provisional node's id inserted at position `index`. -/
theorem behaviorDrawWay_pushes_two (im : Imports) (c0 : Context) (wayId : EntityId)
    (index : Nat) (mode : Mode) (startGraph : Graph) (endId : EntityId) (mc : Loc) (s0 : State)
    (hstart : behaviorDrawWay im c0 wayId index mode startGraph endId mc = .ok s0)
    (hfresh : endId ≠ wayId) :
    ∃ w e1 e2, c0.entity wayId = .ok (.way w) ∧
      s0.ctx.history.base = c0.history.base ∧
      s0.ctx.history.rest = e2 :: e1 :: c0.history.rest ∧ s0._tempEdits = 2 ∧
      e1.graph = c0.graph ∧ e1.annotation_ = some s0.annotation_ ∧
      e2.graph.hasEntity endId = some (osmNode endId mc) ∧
      e2.graph.hasEntity wayId
        = some (.way { w with nodes := w.nodes.take index ++ endId :: w.nodes.drop index }) := by
  obtain ⟨w, hw, rfl⟩ := behaviorDrawWay_ok hstart
  have hwid : w.id = wayId := Graph.hasEntity_id (Graph.entity_eq_ok.mp hw)
  refine ⟨w, _, _, hw, rfl, rfl, rfl, rfl, rfl, ?_, ?_⟩
  · have h1 : ¬ (Entity.way (w.addNode endId index)).id = endId := by
      intro h
      exact hfresh (h.symm.trans hwid)
    rw [Graph.hasEntity_replace, if_neg h1, Graph.hasEntity_replace]
    exact if_pos rfl
  · rw [Graph.hasEntity_replace]
    exact if_pos hwid

theorem behaviorDrawWay_pushes_two_witness :
    ∃ w e1 e2, lineContext.entity 10 = .ok (.way w) ∧
      lineSession.ctx.history.base = lineContext.history.base ∧
      lineSession.ctx.history.rest = e2 :: e1 :: lineContext.history.rest ∧
      lineSession._tempEdits = 2 ∧
      e1.graph = lineContext.graph ∧ e1.annotation_ = some lineSession.annotation_ ∧
      e2.graph.hasEntity 99 = some (osmNode 99 (5, 5)) ∧
      e2.graph.hasEntity 10
        = some (.way { w with nodes := w.nodes.take 2 ++ 99 :: w.nodes.drop 2 }) :=
  behaviorDrawWay_pushes_two gridImports lineContext 10 2 (.draw 0) lineGraph 99 (5, 5)
    lineSession (by decide) (by decide)

/-- C14: after an `addNode(node)` that is not blocked, in a session whose
`origWay` is the way `wayId` and whose provisional node has another id, the
current graph holds the target way with the node list of the original way and
`node.id` inserted at position `index`, and holds no entity under the id of the
provisional node. -/
theorem addNode_reuses_node (im : Imports) (s : State) (node : Entity) (w : Way)
    (hnope : s.ctx.nope = false) (hway : s.origWay = .way w) (hwid : w.id = s.wayId)
    (hend : s.end_.id ≠ s.wayId) :
    (addNode im s node).state.ctx.graph.hasEntity s.wayId
        = some (.way { w with nodes := w.nodes.take s.index ++ node.id :: w.nodes.drop s.index }) ∧
      (addNode im s node).state.ctx.graph.hasEntity s.end_.id = none ∧
      ∀ e ∈ (addNode im s node).state.ctx.graph.entities, e.id ≠ s.end_.id := by
  obtain ⟨b, m, hs, -⟩ := addNode_state im s node w hnope hway
  have hg : (addNode im s node).state.ctx.graph
      = ((s.ctx.pop s._tempEdits).graph.replace (.way (w.addNode node.id s.index))
          s.ctx.nextOid).remove s.end_ (s.ctx.nextOid + 1) := by
    rw [hs]
    rfl
  rw [hg]
  refine ⟨?_, Graph.hasEntity_replaceDrawNode _ _ _ _, ?_⟩
  · rw [Graph.hasEntity_remove, if_neg hend, Graph.hasEntity_replace]
    exact if_pos hwid
  · intro e he
    simp only [Graph.remove, List.mem_filter, bne_iff_ne, ne_eq] at he
    exact he.2

theorem addNode_reuses_node_witness :
    (addNode gridImports lineSession (.node ⟨1, (0, 0)⟩)).state.ctx.graph.hasEntity
          lineSession.wayId
        = some (.way { (⟨10, [1, 2]⟩ : Way) with
            nodes := [1, 2].take lineSession.index ++
              (Entity.node ⟨1, (0, 0)⟩).id :: [1, 2].drop lineSession.index }) ∧
      (addNode gridImports lineSession (.node ⟨1, (0, 0)⟩)).state.ctx.graph.hasEntity
          lineSession.end_.id = none ∧
      ∀ e ∈ (addNode gridImports lineSession (.node ⟨1, (0, 0)⟩)).state.ctx.graph.entities,
        e.id ≠ lineSession.end_.id :=
  addNode_reuses_node gridImports lineSession (.node ⟨1, (0, 0)⟩) ⟨10, [1, 2]⟩
    (by decide) (by decide) (by decide) (by decide)

/-- C19: after an `addNode` that is not blocked the blocking flag is clear, for
every graph, every node and every geometry test: the check runs on the
provisional node, which the commit has removed. When moreover `node` is not the
provisional node and no way that the commit leaves in the graph has it as a
member, the node has no parent way and the check completes with no way tested. -/
theorem addNode_check_vacuous (im : Imports) (s : State) (node : Entity)
    (hnope : s.ctx.nope = false) :
    (addNode im s node).state.ctx.nope = false ∧
      ∀ w, s.origWay = .way w → node.id ≠ s.end_.id → s.end_.id ∉ w.nodes →
        (∀ v, Entity.way v ∈ (s.ctx.pop s._tempEdits).graph.entities → v.id ≠ w.id →
          s.end_.id ∉ v.nodes) →
        (addNode im s node).thrown = none ∧
          (addNode im s node).state.ctx.graph.parentWays s.end_ = [] ∧
          isInvalidGeometry im s.end_ (addNode im s node).state.ctx.graph false = .ok false := by
  constructor
  · cases hway : s.origWay with
    | node n =>
      rw [addNode_eq_commit, if_neg (by simp [hnope])]
      unfold commit
      simp [Context.perform, runActions, _actionReplaceDrawNode, hway, Context.pop, hnope]
    | way w =>
      rw [addNode_outcome im s node w hnope hway]
      unfold Outcome.andThen checkGeometry
      rcases isInvalidGeometry_of_removed im s.end_
          (((s.ctx.pop s._tempEdits).graph.replace (.way (w.addNode node.id s.index))
            s.ctx.nextOid).remove s.end_ (s.ctx.nextOid + 1)) false
          (Graph.hasEntity_replaceDrawNode _ _ _ _) with ⟨-, hok⟩ | ⟨id, herr⟩
      · have hok1 : isInvalidGeometry im s.end_
            (Context.graph
              { history :=
                  { base := s.ctx.history.base
                    rest :=
                      { graph := ((s.ctx.pop s._tempEdits).graph.replace
                          (.way (w.addNode node.id s.index)) s.ctx.nextOid).remove s.end_
                          (s.ctx.nextOid + 1)
                        annotation_ := some s.annotation_ } ::
                      s.ctx.history.rest.drop s._tempEdits }
                nextOid := s.ctx.nextOid + 2, nope := false, mode := s.ctx.mode }) false
            = .ok false := hok
        simp [hok1, enter]
      · have herr1 : isInvalidGeometry im s.end_
            (Context.graph
              { history :=
                  { base := s.ctx.history.base
                    rest :=
                      { graph := ((s.ctx.pop s._tempEdits).graph.replace
                          (.way (w.addNode node.id s.index)) s.ctx.nextOid).remove s.end_
                          (s.ctx.nextOid + 1)
                        annotation_ := some s.annotation_ } ::
                      s.ctx.history.rest.drop s._tempEdits }
                nextOid := s.ctx.nextOid + 2, nope := false, mode := s.ctx.mode }) false
            = .error (.entityNotFound id) := herr
        simp [herr1]
  · intro w hway hnode hmem hother
    have hparents : (((s.ctx.pop s._tempEdits).graph.replace (.way (w.addNode node.id s.index))
        s.ctx.nextOid).remove s.end_ (s.ctx.nextOid + 1)).parentWays s.end_ = [] := by
      rw [List.eq_nil_iff_forall_not_mem]
      intro v hv
      obtain ⟨hv1, hv2⟩ := Graph.mem_parentWays.mp hv
      simp only [Graph.remove, Graph.replace, List.mem_filter, List.mem_append,
        List.mem_singleton, bne_iff_ne, ne_eq] at hv1
      rcases hv1.1 with ⟨h1, h2⟩ | h1
      · exact hother v h1 (by simpa [Entity.id, Way.addNode] using h2) hv2
      · simp only [Entity.way.injEq] at h1
        subst h1
        simp only [Way.addNode, List.mem_append, List.mem_cons] at hv2
        rcases hv2 with h | h | h
        · exact hmem (List.mem_of_mem_take h)
        · exact hnode h.symm
        · exact hmem (List.mem_of_mem_drop h)
    have hok : isInvalidGeometry im s.end_
        (((s.ctx.pop s._tempEdits).graph.replace (.way (w.addNode node.id s.index))
          s.ctx.nextOid).remove s.end_ (s.ctx.nextOid + 1)) false = .ok false := by
      unfold isInvalidGeometry
      rw [hparents]
      rfl
    have hok1 : isInvalidGeometry im s.end_
        (Context.graph
          { history :=
              { base := s.ctx.history.base
                rest :=
                  { graph := ((s.ctx.pop s._tempEdits).graph.replace
                      (.way (w.addNode node.id s.index)) s.ctx.nextOid).remove s.end_
                      (s.ctx.nextOid + 1)
                    annotation_ := some s.annotation_ } ::
                  s.ctx.history.rest.drop s._tempEdits }
            nextOid := s.ctx.nextOid + 2, nope := false, mode := s.ctx.mode }) false
        = .ok false := hok
    rw [addNode_outcome im s node w hnope hway]
    unfold Outcome.andThen checkGeometry
    simp only [hok1]
    exact ⟨trivial, hparents, hok⟩

theorem addNode_check_vacuous_witness :
    (addNode gridImports crossSession (.node ⟨4, (4, 0)⟩)).state.ctx.nope = false ∧
      (addNode gridImports crossSession (.node ⟨4, (4, 0)⟩)).state.ctx.graph.hasEntity 10
        = some (.way ⟨10, [1, 2, 3, 4, 1]⟩) ∧
      Way.isClosed ⟨10, [1, 2, 3, 4, 1]⟩ = true ∧
      gridImports.geoHasSelfIntersections
        [.node ⟨1, (0, 0)⟩, .node ⟨2, (2, 2)⟩, .node ⟨3, (2, -2)⟩, .node ⟨4, (4, 0)⟩,
          .node ⟨1, (0, 0)⟩] 4 = true :=
  ⟨(addNode_check_vacuous gridImports crossSession (.node ⟨4, (4, 0)⟩) rfl).1,
    by decide, by decide, by decide⟩

/-- C13: on a session that has only seen moves since `behaviorDrawWay` returned
it, an `add` that is not blocked leaves the history that was there before the
session with exactly one entry on top, carrying the session's annotation, and
the counter at 0. The graph of that entry holds the target way with the node
list of the original way and the provisional node's id inserted at position
`index`, and holds the provisional node as the last move left it; the `loc`
argument of `add` has no effect. -/
theorem add_commits_point (im : Imports) (c0 : Context) (wayId : EntityId) (index : Nat)
    (mode : Mode) (startGraph : Graph) (endId : EntityId) (mc : Loc) (s0 : State)
    (evs : List MoveEvent) (loc : Loc) (d : Option Datum)
    (hstart : behaviorDrawWay im c0 wayId index mode startGraph endId mc = .ok s0)
    (hfresh : endId ≠ wayId) (hd : datumNope d = false)
    (hnope : (run im s0 (evs.map Event.move)).ctx.nope = false) :
    ∃ w g, c0.entity wayId = .ok (.way w) ∧
      (add im (run im s0 (evs.map Event.move)) loc d).state.ctx.history
        = { base := c0.history.base
            rest := { graph := g, annotation_ := some s0.annotation_ } :: c0.history.rest } ∧
      (add im (run im s0 (evs.map Event.move)) loc d).state._tempEdits = 0 ∧
      g.hasEntity wayId
        = some (.way { w with nodes := w.nodes.take index ++ endId :: w.nodes.drop index }) ∧
      g.hasEntity endId = some (run im s0 (evs.map Event.move)).end_ ∧
      (∀ pre ev l, evs = pre ++ [ev] →
        moveLoc im (run im s0 (pre.map Event.move)) ev = .ok l →
        (run im s0 (evs.map Event.move)).end_.loc = some l) ∧
      ∀ loc1, add im (run im s0 (evs.map Event.move)) loc1 d
        = add im (run im s0 (evs.map Event.move)) loc d := by
  obtain ⟨w, hw, hs0⟩ := behaviorDrawWay_ok hstart
  have hwid : w.id = wayId := Graph.hasEntity_id (Graph.entity_eq_ok.mp hw)
  have hne : ¬ (Entity.way (w.addNode endId index)).id = endId := by
    intro h
    exact hfresh (h.symm.trans hwid)
  have hmoved0 : Moved s0 s0 := by
    subst hs0
    exact ⟨rfl, rfl, rfl, rfl, rfl, rfl, rfl, rfl, rfl, _, rfl⟩
  have hstored0 : EndStored s0 := by
    subst hs0
    refine ⟨⟨endId, mc⟩, rfl, ?_⟩
    show Graph.hasEntity ((c0.graph.replace (osmNode endId mc) c0.nextOid).replace
      (.way (w.addNode endId index)) (c0.nextOid + 1)) endId = _
    rw [Graph.hasEntity_replace, if_neg hne, Graph.hasEntity_replace]
    exact if_pos rfl
  have hall : ∀ l : List MoveEvent, Moved s0 (run im s0 (l.map Event.move)) ∧
      EndStored (run im s0 (l.map Event.move)) :=
    fun l => run_moves_moved im s0 l s0 hmoved0 hstored0
  have hlast : ∀ pre ev l, evs = pre ++ [ev] →
      moveLoc im (run im s0 (pre.map Event.move)) ev = .ok l →
      (run im s0 (evs.map Event.move)).end_.loc = some l := by
    intro pre ev l hevs hl
    obtain ⟨-, n1, hn1, hstored1⟩ := hall pre
    obtain ⟨hw1, -⟩ := move_writes_loc im _ ev l n1 hl hstored1
    have hrun : run im s0 (evs.map Event.move)
        = (move im (run im s0 (pre.map Event.move)) ev).state := by
      rw [hevs]
      simp [run, step, List.foldl_append]
    rw [hrun, hw1]
    rfl
  obtain ⟨⟨-, h2, -, -, h5, h6, h7, h8, h9, e, h10⟩, -⟩ := hall evs
  obtain ⟨S, hS⟩ : ∃ S, run im s0 (evs.map Event.move) = S := ⟨_, rfl⟩
  rw [hS] at h2 h5 h6 h7 h8 h9 h10 hnope hlast
  simp only [hS]
  have hidx : S.index = index := by rw [h2, hs0]
  have ht : S._tempEdits = 2 := by rw [h7, hs0]
  have hendid : S.end_.id = endId := by rw [h8, hs0]; rfl
  have horig : S.origWay = .way w := by rw [h5, hs0]
  have hbase : S.ctx.history.base = c0.history.base := by rw [h9, hs0]
  have hrest : S.ctx.history.rest.drop S._tempEdits = c0.history.rest := by
    rw [h10, ht, hs0]
    rfl
  have hpopg : (S.ctx.pop S._tempEdits).graph = c0.graph := by
    simp only [Context.pop, History.pop, Context.graph, History.graph, History.current, hrest,
      hbase]
  obtain ⟨b, m, hs⟩ := add_state im S loc d w hd hnope horig
  refine ⟨w, (c0.graph.replace S.end_ S.ctx.nextOid).replace
    (.way (w.addNode endId index)) (S.ctx.nextOid + 1), hw, ?_, ?_, ?_, ?_, hlast, ?_⟩
  · rw [hs]
    simp only [hrest, hpopg, hendid, hidx, h6, hbase]
  · rw [hs]
  · rw [Graph.hasEntity_replace]
    exact if_pos hwid
  · rw [Graph.hasEntity_replace, if_neg hne, Graph.hasEntity_replace]
    exact if_pos hendid
  · intro loc1
    rfl

theorem add_commits_point_witness :
    ∃ w g, lineContext.entity 10 = .ok (.way w) ∧
      (add gridImports (run gridImports lineSession ([edgeMove].map Event.move))
          (0, 0) none).state.ctx.history
        = { base := lineContext.history.base
            rest := { graph := g, annotation_ := some lineSession.annotation_ } ::
              lineContext.history.rest } ∧
      (add gridImports (run gridImports lineSession ([edgeMove].map Event.move))
          (0, 0) none).state._tempEdits = 0 ∧
      g.hasEntity 10
        = some (.way { w with nodes := w.nodes.take 2 ++ 99 :: w.nodes.drop 2 }) ∧
      g.hasEntity 99 = some (run gridImports lineSession ([edgeMove].map Event.move)).end_ ∧
      (∀ pre ev l, [edgeMove] = pre ++ [ev] →
        moveLoc gridImports (run gridImports lineSession (pre.map Event.move)) ev = .ok l →
        (run gridImports lineSession ([edgeMove].map Event.move)).end_.loc = some l) ∧
      ∀ loc1, add gridImports (run gridImports lineSession ([edgeMove].map Event.move)) loc1 none
        = add gridImports (run gridImports lineSession ([edgeMove].map Event.move)) (0, 0) none :=
  add_commits_point gridImports lineContext 10 2 (.draw 0) lineGraph 99 (5, 5) lineSession
    [edgeMove] (0, 0) none (by decide) (by decide) (by decide) (by decide)

end DrawWay
